import Mathlib

/-!
Verification of the holdings-change analyzer, report manager and dashboard
generator of the TWActiveETFCrawler repository.

Modelling conventions:
* Python share counts are integers; they are modelled as `Int`.
* Python floats holding lot counts (share_count / 1000 rounded to 2 decimals)
  are modelled in two layers: the exact decimal values they approximate are
  exact rationals `ℚ` with decimal rounding `round2`, and the bit-level
  binary64 values are `Float64` (a 53-bit mantissa and an exponent, with
  IEEE round-to-nearest, ties-to-even) with CPython's correctly rounded
  `round(float, 2)` as `pyRound2F`.  Claims about integer/string logic use
  the decimal layer; the float layer decides the bit-exact claim C3.
* A Python holdings dict row is modelled by `Holding`; a missing `shares` key
  is `shares = none` and `holding.get('shares', 0)` is `Holding.getShares`.
* Python dicts built by comprehension (`{h['stock_code']: h for h in lst}`)
  keep the first-occurrence key order and the last-occurrence value; this is
  `pyDictKeys` / `pyDictGet`.
* Fallible database access is modelled by functions returning
  `Except String _`: `Except.error` is a raised exception.
* `list.sort` (Timsort, stable) is modelled by the stable insertion sort
  `sortLe`; Python string comparison is code-point lexicographic, modelled by
  `strLe` on the character data.
-/

namespace TWActiveETF

/-- Round-half-to-even on rationals, the tie-breaking rule of decimal
rounding.  Applied to the exact value of a number this is the decimal-level
idealization of Python's `round`; the bit-level binary64 behaviour of the
program's floats is modelled separately by `Float64` and `pyRound2F`
below. -/
def roundHalfEven (q : ℚ) : ℤ :=
  let f := ⌊q⌋
  let r := q - f
  if r < 1/2 then f
  else if r > 1/2 then f + 1
  else if f % 2 = 0 then f else f + 1

/-- The exact decimal value of `round(q, 2)`: the 2-decimal half-even
rounding of an exact rational.  This is the idealized (exact-decimal) lot
value; the program's floats only approximate it, and where that difference
matters (claim C3) the binary64 model `Float64`/`pyRound2F` below is
used instead. -/
def round2 (q : ℚ) : ℚ := ((roundHalfEven (q * 100) : ℤ) : ℚ) / 100

/-- One row of a holdings list handed to the analyzer, in the null-free
fragment: `shares = none` models a dict without a `shares` key, `some n` a
dict with the integer share count `n`.  A row whose `shares` key is present
but holds Python `None` (a SQL NULL) is NOT representable here; that case is
modelled by `HoldingRow` below, over which `compare_holdings_rows` faithfully
raises. -/
structure Holding where
  stock_code : String
  stock_name : String
  shares : Option Int
  deriving DecidableEq

/-- `holding.get('shares', 0)`. -/
def Holding.getShares (h : Holding) : Int := h.shares.getD 0

/-- `HoldingChange` dataclass of holdings_analyzer.py (fields default to
`None`, i.e. `none`). -/
structure HoldingChange where
  change_type : String
  stock_code : String
  stock_name : String
  old_shares : Option Int := none
  new_shares : Option Int := none
  shares_diff : Option Int := none
  old_lots : Option ℚ := none
  new_lots : Option ℚ := none
  lots_diff : Option ℚ := none
  deriving DecidableEq

/-- `HoldingsAnalyzer.shares_to_lots`
(`round(shares / 1000, 2) if shares else 0.0`) at the level of exact decimal
values.  The program's return value is the binary64 float closest to this
rational; `shares_to_lots_f` below gives the bit-level float. -/
def shares_to_lots (shares : Int) : ℚ :=
  if shares ≠ 0 then round2 ((shares : ℚ) / 1000) else 0

/-- Key list of `{h['stock_code']: h for h in l}` (first-occurrence order,
each key once). -/
def pyDictKeys : List Holding → List String
  | [] => []
  | h :: t => h.stock_code :: (pyDictKeys t).filter (fun k => k ≠ h.stock_code)

/-- Lookup in `{h['stock_code']: h for h in l}` (the last row with the key
wins, as in a Python dict comprehension). -/
def pyDictGet (l : List Holding) (code : String) : Option Holding :=
  l.reverse.find? (fun h => h.stock_code == code)

/-- Body of loop 1 of `compare_holdings` (detect added stocks) for one key of
the today dict. -/
def addedRecord (yesterday_holdings today_holdings : List Holding)
    (code : String) : Option HoldingChange :=
  match pyDictGet yesterday_holdings code, pyDictGet today_holdings code with
  | none, some holding =>
      some { change_type := "ADDED"
             stock_code := code
             stock_name := holding.stock_name
             new_shares := some holding.getShares
             new_lots := some (shares_to_lots holding.getShares) }
  | _, _ => none

/-- Body of loop 2 of `compare_holdings` (detect removed stocks) for one key
of the yesterday dict. -/
def removedRecord (yesterday_holdings today_holdings : List Holding)
    (code : String) : Option HoldingChange :=
  match pyDictGet today_holdings code, pyDictGet yesterday_holdings code with
  | none, some holding =>
      some { change_type := "REMOVED"
             stock_code := code
             stock_name := holding.stock_name
             old_shares := some holding.getShares
             old_lots := some (shares_to_lots holding.getShares) }
  | _, _ => none

/-- Body of loop 3 of `compare_holdings` (detect share-count changes) for one
key of the yesterday dict. -/
def modifiedRecord (yesterday_holdings today_holdings : List Holding)
    (code : String) : Option HoldingChange :=
  match pyDictGet yesterday_holdings code, pyDictGet today_holdings code with
  | some old_holding, some new_holding =>
      let old_shares := old_holding.getShares
      let new_shares := new_holding.getShares
      let shares_diff := new_shares - old_shares
      let old_lots := shares_to_lots old_shares
      let new_lots := shares_to_lots new_shares
      let lots_diff := new_lots - old_lots
      if shares_diff ≠ 0 then
        some { change_type := if shares_diff > 0 then "SHARES_UP" else "SHARES_DOWN"
               stock_code := code
               stock_name := new_holding.stock_name
               old_shares := some old_shares
               new_shares := some new_shares
               shares_diff := some shares_diff
               old_lots := some old_lots
               new_lots := some new_lots
               lots_diff := some lots_diff }
      else none
  | _, _ => none

/-- `HoldingsAnalyzer.compare_holdings`: the three loops append to one list,
so the result is the added records, then the removed ones, then the modified
ones. -/
def compare_holdings (yesterday_holdings today_holdings : List Holding) :
    List HoldingChange :=
  (pyDictKeys today_holdings).filterMap
      (addedRecord yesterday_holdings today_holdings)
    ++ (pyDictKeys yesterday_holdings).filterMap
      (removedRecord yesterday_holdings today_holdings)
    ++ (pyDictKeys yesterday_holdings).filterMap
      (modifiedRecord yesterday_holdings today_holdings)

/-- The records of `compare_holdings` that concern one stock code. -/
def recordsFor (yesterday_holdings today_holdings : List Holding)
    (c : String) : List HoldingChange :=
  (compare_holdings yesterday_holdings today_holdings).filter
    (fun r => r.stock_code == c)

/-- The database methods the analyzer and the report manager call.  The two
fetching methods can raise (an `Except.error`), matching the spec's failure
scenario for batch detection; `get_active_etfs` yields
(etf_code, etf_name) rows. -/
structure DB where
  get_previous_trading_date : String → String → Except String (Option String)
  get_holdings_by_date : String → String → Except String (List Holding)
  get_active_etfs : List (String × String)

/-- `HoldingsAnalyzer.detect_changes`.  Python falsiness of
`previous_date` covers both `None` and the empty string; falsiness of a list
is emptiness. -/
def detect_changes (db : DB) (etf_code current_date : String) :
    Except String (Option (List HoldingChange)) := do
  let previous_date ← db.get_previous_trading_date current_date etf_code
  match previous_date with
  | none => return none
  | some pd =>
    if pd = "" then return none
    else do
      let yesterday_holdings ← db.get_holdings_by_date pd etf_code
      let today_holdings ← db.get_holdings_by_date current_date etf_code
      if today_holdings.isEmpty then return none
      else
        let changes := compare_holdings yesterday_holdings today_holdings
        return (if changes.isEmpty then none else some changes)

/-- The ChangeSet: insertion-ordered map from etf_code to its change list. -/
abbrev ChangesDict := List (String × List HoldingChange)

/-- Python dict assignment `d[k] = v`: update in place when the key exists,
append otherwise. -/
def dictInsert {α : Type} (m : List (String × α)) (k : String) (v : α) :
    List (String × α) :=
  if m.any (fun p => p.1 == k) then
    m.map (fun p => if p.1 == k then (k, v) else p)
  else m ++ [(k, v)]

/-- The loop of `detect_changes_batch` over the remaining etf codes, carrying
the `all_changes` accumulator.  There is no try/except in the source: the
`detect_changes` exception of any code propagates. -/
def detect_changes_batch_go (db : DB) (current_date : String)
    (acc : ChangesDict) : List String → Except String ChangesDict
  | [] => pure acc
  | etf_code :: rest =>
    match detect_changes db etf_code current_date with
    | .error msg => .error msg
    | .ok (some cs) =>
      if cs.isEmpty then detect_changes_batch_go db current_date acc rest
      else detect_changes_batch_go db current_date (dictInsert acc etf_code cs) rest
    | .ok none => detect_changes_batch_go db current_date acc rest

/-- `HoldingsAnalyzer.detect_changes_batch`. -/
def detect_changes_batch (db : DB) (etf_codes : List String)
    (current_date : String) : Except String ChangesDict :=
  detect_changes_batch_go db current_date [] etf_codes

/-- Code-point lexicographic comparison of character lists, the order Python
uses on strings. -/
def lexLeChars : List Char → List Char → Bool
  | [], _ => true
  | _ :: _, [] => false
  | a :: as, b :: bs =>
    if a < b then true
    else if b < a then false
    else lexLeChars as bs

/-- Python string comparison. -/
def strLe (a b : String) : Bool := lexLeChars a.data b.data

/-- Stable insertion of one element into a sorted list: the new element goes
before the first existing element it compares less-or-equal to. -/
def insertLe {α : Type} (le : α → α → Bool) (a : α) : List α → List α
  | [] => [a]
  | b :: t => if le a b then a :: b :: t else b :: insertLe le a t

/-- Stable sort, modelling Python's stable `list.sort`. -/
def sortLe {α : Type} (le : α → α → Bool) : List α → List α
  | [] => []
  | a :: t => insertLe le a (sortLe le t)

/-- One entry of `reports_index.json`. -/
structure ReportIndexEntry where
  date : String
  etf_count : Nat
  total_changes : Nat
  etfs : List String
  deriving DecidableEq

/-- The `new_report` dict built by `ReportManager._update_reports_index`. -/
def mkIndexEntry (changes_dict : ChangesDict) (date : String) :
    ReportIndexEntry :=
  { date := date
    etf_count := changes_dict.length
    total_changes := (changes_dict.map (fun p => p.2.length)).sum
    etfs := changes_dict.map (fun p => p.1) }

/-- State of the `reports_index.json` file on disk: missing, present but not
parseable as JSON, or parseable with a list of entries. -/
inductive IndexFile where
  | absent
  | corrupt (raw : String)
  | valid (reports : List ReportIndexEntry)

/-- The index-reading prologue of `_update_reports_index`: a missing file and
a `json.JSONDecodeError` both yield the empty list. -/
def read_reports_index : IndexFile → List ReportIndexEntry
  | .absent => []
  | .corrupt _ => []
  | .valid reports => reports

/-- The upsert step of `_update_reports_index`: replace the entry at the
first index whose date matches, else insert the new entry at position 0. -/
def upsertReports (reports : List ReportIndexEntry)
    (changes_dict : ChangesDict) (date : String) : List ReportIndexEntry :=
  match reports.findIdx? (fun r => r.date == date) with
  | some i => reports.set i (mkIndexEntry changes_dict date)
  | none => mkIndexEntry changes_dict date :: reports

/-- `ReportManager._update_reports_index` after the file read: upsert the
entry keyed by date, stable-sort by date descending, keep the first 90. -/
def update_reports_index (reports : List ReportIndexEntry)
    (changes_dict : ChangesDict) (date : String) : List ReportIndexEntry :=
  (sortLe (fun x y => strLe y.date x.date)
    (upsertReports reports changes_dict date)).take 90

/-- The files `ReportManager.generate_all_reports` writes, in order. -/
inductive Artifact where
  | txt
  | md
  | html
  | indexUpdate
  deriving DecidableEq

/-- `ReportManager.generate_all_reports`, modelled by the list of artifacts
it writes: with an empty ChangeSet it logs and returns without writing
anything; otherwise it writes the TXT, Markdown and HTML reports and updates
the index. -/
def generate_all_reports (changes_dict : ChangesDict) (date : String) :
    List Artifact :=
  if changes_dict.isEmpty then []
  else [Artifact.txt, Artifact.md, Artifact.html, Artifact.indexUpdate]

/-- `'='*60`. -/
def strRepeat (s : String) (n : Nat) : String := String.join (List.replicate n s)

/-- `next((e['etf_name'] for e in etf_info if e['etf_code'] == etf_code),
etf_code)`. -/
def etfNameOf (etf_info : List (String × String)) (etf_code : String) : String :=
  match etf_info.find? (fun e => e.1 == etf_code) with
  | some e => e.2
  | none => etf_code

/-- Python `f"{q:.2f}"` on an (idealized, exact) float value. -/
def format2f (q : ℚ) : String :=
  let cents := roundHalfEven (q * 100)
  let sign := if cents < 0 then "-" else ""
  let a := cents.natAbs
  sign ++ toString (a / 100) ++ "." ++
    (if a % 100 < 10 then "0" else "") ++ toString (a % 100)

/-- The added-stocks section of one ETF block of the TXT report. -/
def reportAddedLines (added : List HoldingChange) : List String :=
  if added.isEmpty then []
  else
    ("  新增成分股 (" ++ toString added.length ++ "):") ::
      (added.enum.map (fun p =>
        "    " ++ (if p.1 < added.length - 1 then "├─" else "└─") ++ " " ++
          p.2.stock_code ++ " " ++ p.2.stock_name ++ " (持股: " ++
          format2f (p.2.new_lots.getD 0) ++ "張)")) ++ [""]

/-- The removed-stocks section of one ETF block of the TXT report. -/
def reportRemovedLines (removed : List HoldingChange) : List String :=
  if removed.isEmpty then []
  else
    ("  移除成分股 (" ++ toString removed.length ++ "):") ::
      (removed.enum.map (fun p =>
        "    " ++ (if p.1 < removed.length - 1 then "├─" else "└─") ++ " " ++
          p.2.stock_code ++ " " ++ p.2.stock_name ++ " (昨日持股: " ++
          format2f (p.2.old_lots.getD 0) ++ "張)")) ++ [""]

/-- The share-change section of one ETF block of the TXT report. -/
def reportModifiedLines (modified : List HoldingChange) : List String :=
  if modified.isEmpty then []
  else
    ("  持股變動 (" ++ toString modified.length ++ "):") ::
      (modified.enum.map (fun p =>
        "    " ++ (if p.1 < modified.length - 1 then "├─" else "└─") ++ " " ++
          p.2.stock_code ++ " " ++ p.2.stock_name ++ " 持股: " ++
          format2f (p.2.old_lots.getD 0) ++ "張 → " ++
          format2f (p.2.new_lots.getD 0) ++ "張 (" ++
          (if p.2.lots_diff.getD 0 > 0 then "▲" else "▼") ++
          format2f |p.2.lots_diff.getD 0| ++ "張)")) ++ [""]

/-- The block of lines the TXT report emits for one ETF. -/
def reportEtfBlock (db : DB) (item : String × List HoldingChange) :
    List String :=
  let etf_name := etfNameOf db.get_active_etfs item.1
  let added := item.2.filter (fun c => c.change_type == "ADDED")
  let removed := item.2.filter (fun c => c.change_type == "REMOVED")
  let modified := item.2.filter
    (fun c => !(c.change_type == "ADDED") && !(c.change_type == "REMOVED"))
  ("【" ++ item.1 ++ " - " ++ etf_name ++ "】") ::
    (reportAddedLines added ++ reportRemovedLines removed ++
      reportModifiedLines modified)

/-- `HoldingsAnalyzer.generate_report`: the plain-text report.  An empty
ChangeSet yields the fixed no-changes text. -/
def generate_report (db : DB) (changes_dict : ChangesDict) (date : String) :
    String :=
  if changes_dict.isEmpty then
    "\n=== " ++ date ++ " ETF成分股變動報告 ===\n\n無變動\n"
  else
    let sorted_items := sortLe (fun a b => strLe a.1 b.1) changes_dict
    let total_changes := (sorted_items.map (fun p => p.2.length)).sum
    let report_lines :=
      ["\n" ++ strRepeat "=" 60,
       "=== " ++ date ++ " ETF成分股變動報告 ===",
       strRepeat "=" 60 ++ "\n"] ++
      (sorted_items.map (reportEtfBlock db)).flatten ++
      ["總計：處理 " ++ toString changes_dict.length ++ " 個ETF，發現 " ++
        toString total_changes ++ " 筆變動",
       strRepeat "=" 60 ++ "\n"]
    String.intercalate "\n" report_lines

/-- One `etf_detail` dict recorded for a hot stock. -/
structure EtfDetail where
  etf_code : String
  etf_name : String
  adjustment : ℚ
  new_lots : ℚ
  weight : Option ℚ := none
  lots : Option ℚ := none
  deriving DecidableEq

/-- The per-stock accumulator of `generate_dashboard_data`
(`stock_changes[code]`). -/
structure StockAgg where
  name : String
  up_count : Nat
  down_count : Nat
  net_change : ℚ
  etf_details : List EtfDetail
  deriving DecidableEq

/-- One entry of the `hot_stocks` dashboard list. -/
structure HotStock where
  stock_code : String
  stock_name : String
  total_adjustments : Nat
  net_change : ℚ
  etf_details : List EtfDetail
  deriving DecidableEq

/-- One holding row of the optional `etf_holdings` bundle. -/
structure BundleHolding where
  stock_code : String
  weight : ℚ
  lots : ℚ
  deriving DecidableEq

/-- One ETF of the optional `etf_holdings` bundle. -/
structure EtfBundle where
  etf_code : String
  holdings : List BundleHolding
  deriving DecidableEq

/-- First-match association lookup (Python dict lookup; all the dicts looked
up this way are built with unique keys). -/
def assocFind {α : Type} : List (String × α) → String → Option α
  | [], _ => none
  | p :: t, k => if p.1 = k then some p.2 else assocFind t k

/-- `etf_info_dict.get(etf_code, etf_code)`. -/
def etfInfoName (etf_info_dict : List (String × String)) (etf_code : String) :
    String :=
  match assocFind etf_info_dict etf_code with
  | some v => v
  | none => etf_code

/-- `change.change_type in ['SHARES_UP', 'SHARES_DOWN']`. -/
def isAdjustment (c : HoldingChange) : Bool :=
  c.change_type == "SHARES_UP" || c.change_type == "SHARES_DOWN"

/-- Update the aggregate stored under one key of the `stock_changes` dict. -/
def updateAgg (m : List (String × StockAgg)) (code : String)
    (f : StockAgg → StockAgg) : List (String × StockAgg) :=
  m.map (fun p => if p.1 = code then (p.1, f p.2) else p)

/-- Loop body of the hot-stock accumulation (report_generator.py lines
59-85) for one change record of one ETF. -/
def recordStockChange (etf_info_dict : List (String × String))
    (m : List (String × StockAgg)) (etf_code : String) (change : HoldingChange) :
    List (String × StockAgg) :=
  if isAdjustment change then
    let code := change.stock_code
    let m1 :=
      if (assocFind m code).isSome then m
      else m ++ [(code, ⟨change.stock_name, 0, 0, 0, []⟩)]
    let etf_detail : EtfDetail :=
      { etf_code := etf_code
        etf_name := etfInfoName etf_info_dict etf_code
        adjustment := round2 (change.lots_diff.getD 0)
        new_lots := round2 (change.new_lots.getD 0) }
    updateAgg m1 code (fun agg =>
      { agg with
        etf_details := agg.etf_details ++ [etf_detail]
        up_count := if change.change_type == "SHARES_UP" then agg.up_count + 1
          else agg.up_count
        down_count := if change.change_type == "SHARES_UP" then agg.down_count
          else agg.down_count + 1
        net_change := agg.net_change + change.lots_diff.getD 0 })
  else m

/-- The flattened iteration stream of the nested
`for etf_code, changes in changes_dict.items(): for change in changes` loop. -/
def changeStream (changes_dict : ChangesDict) : List (String × HoldingChange) :=
  changes_dict.flatMap (fun p => p.2.map (fun c => (p.1, c)))

/-- The fully accumulated `stock_changes` dict. -/
def stock_changes_of (etf_info_dict : List (String × String))
    (changes_dict : ChangesDict) : List (String × StockAgg) :=
  (changeStream changes_dict).foldl
    (fun m pc => recordStockChange etf_info_dict m pc.1 pc.2) []

/-- The weight/lots enrichment of one etf_detail (report_generator.py lines
88-101): first bundle with the ETF code, first holding with the stock code. -/
def enrichDetail (etf_holdings : List EtfBundle) (stock_code : String)
    (d : EtfDetail) : EtfDetail :=
  match etf_holdings.find? (fun e => e.etf_code == d.etf_code) with
  | some etf =>
    match etf.holdings.find? (fun h => h.stock_code == stock_code) with
    | some holding => { d with weight := some holding.weight, lots := some holding.lots }
    | none => d
  | none => d

/-- The `if etf_holdings:` enrichment pass over the whole dict. -/
def enrichStockChanges (etf_holdings : Option (List EtfBundle))
    (m : List (String × StockAgg)) : List (String × StockAgg) :=
  match etf_holdings with
  | none => m
  | some bundles =>
    m.map (fun p =>
      (p.1, { p.2 with etf_details := p.2.etf_details.map (enrichDetail bundles p.1) }))

/-- One hot-stock entry built from an accumulated (code, aggregate) pair. -/
def mkHotStock (p : String × StockAgg) : HotStock :=
  { stock_code := p.1
    stock_name := p.2.name
    total_adjustments := p.2.up_count + p.2.down_count
    net_change := round2 p.2.net_change
    etf_details := p.2.etf_details }

/-- The `hot_stocks` list before truncation: entries in dict order, then the
stable descending sort by `total_adjustments`. -/
def hot_stocks_all (etf_info_dict : List (String × String))
    (changes_dict : ChangesDict) (etf_holdings : Option (List EtfBundle)) :
    List HotStock :=
  sortLe (fun x y => y.total_adjustments ≤ x.total_adjustments)
    ((enrichStockChanges etf_holdings
        (stock_changes_of etf_info_dict changes_dict)).map mkHotStock)

/-- The hot-stocks component of `HTMLReportGenerator.generate_dashboard_data`
(lines 54-115): ranking truncated to the top 10. -/
def generate_dashboard_hot_stocks (etf_info_dict : List (String × String))
    (changes_dict : ChangesDict) (etf_holdings : Option (List EtfBundle)) :
    List HotStock :=
  (hot_stocks_all etf_info_dict changes_dict etf_holdings).take 10

/-- The INCREASED/DECREASED records of the whole ChangeSet that concern one
stock code, in iteration order. -/
def adjustmentRecordsFor (changes_dict : ChangesDict) (c : String) :
    List HoldingChange :=
  (changes_dict.flatMap (fun p => p.2)).filter
    (fun r => isAdjustment r && r.stock_code == c)

/-! ### Rounding lemmas -/

lemma roundHalfEven_intCast (n : ℤ) : roundHalfEven (n : ℚ) = n := by
  unfold roundHalfEven
  simp

lemma round2_cent (k : ℤ) : round2 ((k : ℚ) / 100) = (k : ℚ) / 100 := by
  unfold round2
  rw [div_mul_cancel₀ (k : ℚ) (by norm_num : (100 : ℚ) ≠ 0), roundHalfEven_intCast]

lemma round2_exists_cent (q : ℚ) : ∃ k : ℤ, round2 q = (k : ℚ) / 100 :=
  ⟨roundHalfEven (q * 100), rfl⟩

lemma round2_zero : round2 0 = 0 := by
  have h := round2_cent 0
  simpa using h

lemma shares_to_lots_eq (s : ℤ) :
    shares_to_lots s = round2 ((s : ℚ) / 1000) := by
  unfold shares_to_lots
  by_cases h : s = 0
  · subst h; simp [round2_zero]
  · simp [h]

lemma round2_fixed_sub (a b : ℚ) :
    round2 (round2 a - round2 b) = round2 a - round2 b := by
  obtain ⟨k1, h1⟩ := round2_exists_cent a
  obtain ⟨k2, h2⟩ := round2_exists_cent b
  rw [h1, h2, div_sub_div_same]
  rw [show ((k1 : ℚ) - k2) = ((k1 - k2 : ℤ) : ℚ) by push_cast; ring]
  exact round2_cent (k1 - k2)

/-! ### Python-dict lemmas -/

lemma mem_pyDictKeys {l : List Holding} {c : String} :
    c ∈ pyDictKeys l ↔ ∃ h ∈ l, h.stock_code = c := by
  induction l with
  | nil => simp [pyDictKeys]
  | cons hd t ih =>
    simp only [pyDictKeys, List.mem_cons, List.mem_filter, ih]
    constructor
    · rintro (rfl | ⟨⟨h, hh, rfl⟩, _⟩)
      · exact ⟨hd, by simp⟩
      · exact ⟨h, by simp [hh]⟩
    · rintro ⟨h, hh, rfl⟩
      rcases hh with rfl | hht
      · exact Or.inl rfl
      · by_cases he : h.stock_code = hd.stock_code
        · exact Or.inl he
        · exact Or.inr ⟨⟨h, hht, rfl⟩, by simpa using he⟩

lemma pyDictGet_isSome {l : List Holding} {c : String} :
    (pyDictGet l c).isSome ↔ ∃ h ∈ l, h.stock_code = c := by
  unfold pyDictGet
  rw [List.find?_isSome]
  simp [List.mem_reverse]

lemma mem_pyDictKeys_isSome {l : List Holding} {c : String} :
    c ∈ pyDictKeys l ↔ (pyDictGet l c).isSome := by
  rw [mem_pyDictKeys, pyDictGet_isSome]

lemma pyDictKeys_nodup (l : List Holding) : (pyDictKeys l).Nodup := by
  induction l with
  | nil => simp [pyDictKeys]
  | cons hd t ih =>
    refine List.Nodup.cons ?_ (ih.filter _)
    intro hmem
    rcases List.mem_filter.mp hmem with ⟨-, hne⟩
    simp at hne

lemma pyDictGet_mem {l : List Holding} {c : String} {h : Holding}
    (hg : pyDictGet l c = some h) : h ∈ l ∧ h.stock_code = c := by
  unfold pyDictGet at hg
  have hmem := List.mem_of_find?_eq_some hg
  have hp := List.find?_some hg
  exact ⟨List.mem_reverse.mp hmem, by simpa using hp⟩

/-! ### Branch-record lemmas -/

lemma addedRecord_eq_some {ys ts : List Holding} {k : String} {r : HoldingChange}
    (h : addedRecord ys ts k = some r) :
    ∃ hld, pyDictGet ys k = none ∧ pyDictGet ts k = some hld ∧
      r = { change_type := "ADDED", stock_code := k,
            stock_name := hld.stock_name,
            new_shares := some hld.getShares,
            new_lots := some (shares_to_lots hld.getShares) } := by
  unfold addedRecord at h
  cases g1 : pyDictGet ys k <;> cases g2 : pyDictGet ts k <;> rw [g1, g2] at h
  case none.some hld =>
    exact ⟨hld, rfl, rfl, (Option.some.inj h).symm⟩
  all_goals simp at h

lemma removedRecord_eq_some {ys ts : List Holding} {k : String} {r : HoldingChange}
    (h : removedRecord ys ts k = some r) :
    ∃ hld, pyDictGet ts k = none ∧ pyDictGet ys k = some hld ∧
      r = { change_type := "REMOVED", stock_code := k,
            stock_name := hld.stock_name,
            old_shares := some hld.getShares,
            old_lots := some (shares_to_lots hld.getShares) } := by
  unfold removedRecord at h
  cases g1 : pyDictGet ts k <;> cases g2 : pyDictGet ys k <;> rw [g1, g2] at h
  case none.some hld =>
    exact ⟨hld, rfl, rfl, (Option.some.inj h).symm⟩
  all_goals simp at h

lemma modifiedRecord_eq_some {ys ts : List Holding} {k : String} {r : HoldingChange}
    (h : modifiedRecord ys ts k = some r) :
    ∃ oh nh, pyDictGet ys k = some oh ∧ pyDictGet ts k = some nh ∧
      nh.getShares - oh.getShares ≠ 0 ∧
      r = { change_type :=
              if nh.getShares - oh.getShares > 0 then "SHARES_UP" else "SHARES_DOWN",
            stock_code := k,
            stock_name := nh.stock_name,
            old_shares := some oh.getShares,
            new_shares := some nh.getShares,
            shares_diff := some (nh.getShares - oh.getShares),
            old_lots := some (shares_to_lots oh.getShares),
            new_lots := some (shares_to_lots nh.getShares),
            lots_diff := some (shares_to_lots nh.getShares - shares_to_lots oh.getShares) } := by
  unfold modifiedRecord at h
  cases g1 : pyDictGet ys k <;> cases g2 : pyDictGet ts k <;> rw [g1, g2] at h
  case some.some oh nh =>
    dsimp only at h
    split at h
    next hd => exact ⟨oh, nh, rfl, rfl, hd, (Option.some.inj h).symm⟩
    next => simp at h
  all_goals simp at h

lemma addedRecord_code {ys ts : List Holding} {k : String} {r : HoldingChange}
    (h : addedRecord ys ts k = some r) : r.stock_code = k := by
  obtain ⟨hld, -, -, rfl⟩ := addedRecord_eq_some h; rfl

lemma removedRecord_code {ys ts : List Holding} {k : String} {r : HoldingChange}
    (h : removedRecord ys ts k = some r) : r.stock_code = k := by
  obtain ⟨hld, -, -, rfl⟩ := removedRecord_eq_some h; rfl

lemma modifiedRecord_code {ys ts : List Holding} {k : String} {r : HoldingChange}
    (h : modifiedRecord ys ts k = some r) : r.stock_code = k := by
  obtain ⟨oh, nh, -, -, -, rfl⟩ := modifiedRecord_eq_some h; rfl

lemma addedRecord_isSome {ys ts : List Holding} {k : String} :
    (addedRecord ys ts k).isSome = true ↔
      pyDictGet ys k = none ∧ (pyDictGet ts k).isSome = true := by
  unfold addedRecord
  cases g1 : pyDictGet ys k <;> cases g2 : pyDictGet ts k <;> simp

lemma removedRecord_isSome {ys ts : List Holding} {k : String} :
    (removedRecord ys ts k).isSome = true ↔
      pyDictGet ts k = none ∧ (pyDictGet ys k).isSome = true := by
  unfold removedRecord
  cases g1 : pyDictGet ts k <;> cases g2 : pyDictGet ys k <;> simp

lemma modifiedRecord_isSome {ys ts : List Holding} {k : String} :
    (modifiedRecord ys ts k).isSome = true ↔
      ∃ oh nh, pyDictGet ys k = some oh ∧ pyDictGet ts k = some nh ∧
        nh.getShares ≠ oh.getShares := by
  constructor
  · intro hs
    obtain ⟨r, hr⟩ := Option.isSome_iff_exists.mp hs
    obtain ⟨oh, nh, h1, h2, hd, -⟩ := modifiedRecord_eq_some hr
    exact ⟨oh, nh, h1, h2, sub_ne_zero.mp hd⟩
  · rintro ⟨oh, nh, h1, h2, hne⟩
    unfold modifiedRecord
    rw [h1, h2]
    dsimp only
    rw [if_pos (sub_ne_zero.mpr hne)]
    rfl

/-- Counting records with a fixed stock code in one loop of
`compare_holdings`: the loop runs over distinct keys and each produced record
carries its key, so a code is hit at most once. -/
lemma count_filterMap_keyed {f : String → Option HoldingChange}
    {keys : List String} (hk : keys.Nodup)
    (hf : ∀ k r, f k = some r → r.stock_code = k) (c : String) :
    ((keys.filterMap f).filter (fun r => r.stock_code == c)).length
      = if c ∈ keys ∧ (f c).isSome = true then 1 else 0 := by
  induction keys with
  | nil => simp
  | cons k t ih =>
    obtain ⟨hkt, hnd⟩ := List.nodup_cons.mp hk
    rw [List.filterMap_cons]
    cases hfk : f k with
    | none =>
      rw [ih hnd]
      by_cases hck : c = k
      · subst hck
        simp [hfk, hkt]
      · simp [hck]
    | some r =>
      have hcode : r.stock_code = k := hf k r hfk
      rw [List.filter_cons]
      by_cases hck : c = k
      · subst hck
        simp only [hcode, beq_self_eq_true, if_true, List.length_cons, ih hnd]
        simp [hkt, hfk]
      · have hbeq : (r.stock_code == c) = false := by
          rw [hcode]
          exact beq_eq_false_iff_ne.mpr (Ne.symm hck)
        simp only [hbeq, Bool.false_eq_true, if_false, ih hnd]
        simp [hck]

/-- Every record of `compare_holdings` has one of the four change kinds. -/
lemma compare_holdings_change_type {ys ts : List Holding} {r : HoldingChange}
    (hr : r ∈ compare_holdings ys ts) :
    r.change_type = "ADDED" ∨ r.change_type = "REMOVED" ∨
      r.change_type = "SHARES_UP" ∨ r.change_type = "SHARES_DOWN" := by
  unfold compare_holdings at hr
  rcases List.mem_append.mp hr with h | h
  · rcases List.mem_append.mp h with h2 | h2
    · obtain ⟨k, -, heq⟩ := List.mem_filterMap.mp h2
      obtain ⟨hld, -, -, rfl⟩ := addedRecord_eq_some heq
      exact Or.inl rfl
    · obtain ⟨k, -, heq⟩ := List.mem_filterMap.mp h2
      obtain ⟨hld, -, -, rfl⟩ := removedRecord_eq_some heq
      exact Or.inr (Or.inl rfl)
  · obtain ⟨k, -, heq⟩ := List.mem_filterMap.mp h
    obtain ⟨oh, nh, -, -, -, rfl⟩ := modifiedRecord_eq_some heq
    by_cases hpos : nh.getShares - oh.getShares > 0
    · exact Or.inr (Or.inr (Or.inl (by simp [hpos])))
    · exact Or.inr (Or.inr (Or.inr (by simp [hpos])))

/-- The record count of `compare_holdings` for one stock code, bucket by
bucket. -/
lemma recordsFor_length (ys ts : List Holding) (c : String) :
    (recordsFor ys ts c).length
      = (if c ∈ pyDictKeys ts ∧ (addedRecord ys ts c).isSome = true then 1 else 0)
        + (if c ∈ pyDictKeys ys ∧ (removedRecord ys ts c).isSome = true then 1 else 0)
        + (if c ∈ pyDictKeys ys ∧ (modifiedRecord ys ts c).isSome = true then 1 else 0) := by
  unfold recordsFor compare_holdings
  rw [List.filter_append, List.filter_append, List.length_append,
    List.length_append]
  rw [count_filterMap_keyed (pyDictKeys_nodup ts)
      (fun k r h => addedRecord_code h) c,
    count_filterMap_keyed (pyDictKeys_nodup ys)
      (fun k r h => removedRecord_code h) c,
    count_filterMap_keyed (pyDictKeys_nodup ys)
      (fun k r h => modifiedRecord_code h) c]

/-- The record count for one stock code, by the presence of the code in the
two snapshots. -/
lemma recordsFor_length_cases (ys ts : List Holding) (c : String) :
    (recordsFor ys ts c).length
      = match pyDictGet ys c, pyDictGet ts c with
        | none, none => 0
        | none, some _ => 1
        | some _, none => 1
        | some hy, some ht => if ht.getShares = hy.getShares then 0 else 1 := by
  rw [recordsFor_length]
  cases g1 : pyDictGet ys c <;> cases g2 : pyDictGet ts c <;>
    simp [mem_pyDictKeys_isSome, addedRecord_isSome, removedRecord_isSome,
      modifiedRecord_isSome, g1, g2]

/-- C5: for every stock code appearing in either snapshot, `compare_holdings`
emits at most one record; it emits none exactly when the stock is present on
both sides with equal share counts; and every record is one of the four
kinds. -/
theorem compare_holdings_complementarity (ys ts : List Holding) (c : String)
    (hc : c ∈ pyDictKeys ys ∨ c ∈ pyDictKeys ts) :
    (recordsFor ys ts c).length ≤ 1 ∧
    ((recordsFor ys ts c).length = 0 ↔
      ∃ hy ht, pyDictGet ys c = some hy ∧ pyDictGet ts c = some ht ∧
        hy.getShares = ht.getShares) ∧
    (∀ r ∈ recordsFor ys ts c,
      r.change_type = "ADDED" ∨ r.change_type = "REMOVED" ∨
        r.change_type = "SHARES_UP" ∨ r.change_type = "SHARES_DOWN") := by
  refine ⟨?_, ?_, fun r hr =>
    compare_holdings_change_type (List.mem_of_mem_filter hr)⟩
  · rw [recordsFor_length_cases]
    cases g1 : pyDictGet ys c <;> cases g2 : pyDictGet ts c <;> dsimp only
    · rcases hc with hm | hm <;> rw [mem_pyDictKeys_isSome] at hm <;>
        simp [g1, g2] at hm
    · simp
    · simp
    · split <;> simp
  · rw [recordsFor_length_cases]
    cases g1 : pyDictGet ys c <;> cases g2 : pyDictGet ts c <;> dsimp only
    · rcases hc with hm | hm <;> rw [mem_pyDictKeys_isSome] at hm <;>
        simp [g1, g2] at hm
    · simp
    · simp
    · rename_i hy0 ht0
      constructor
      · intro h0
        by_cases heq : ht0.getShares = hy0.getShares
        · exact ⟨hy0, ht0, rfl, rfl, heq.symm⟩
        · rw [if_neg heq] at h0
          exact absurd h0 (by simp)
      · rintro ⟨hy1, ht1, hh1, hh2, hsh⟩
        obtain rfl := Option.some.inj hh1
        obtain rfl := Option.some.inj hh2
        rw [if_pos hsh.symm]

/-- C6: a stock present on both sides that drops to zero shares yields one
SHARES_DOWN record, and REMOVED records only ever arise for stocks whose key
is absent from the current snapshot. -/
theorem compare_holdings_zero_is_down (ys ts : List Holding) (c : String)
    (hy ht : Holding)
    (h1 : pyDictGet ys c = some hy) (h2 : pyDictGet ts c = some ht)
    (h3 : ht.getShares = 0) (h4 : 0 < hy.getShares) :
    (recordsFor ys ts c).length = 1 ∧
    (∀ r ∈ recordsFor ys ts c, r.change_type = "SHARES_DOWN") ∧
    (∀ r ∈ compare_holdings ys ts, r.change_type = "REMOVED" →
      pyDictGet ts r.stock_code = none) := by
  have hne : ht.getShares ≠ hy.getShares := by
    rw [h3]; exact fun h => absurd h4 (by simp [← h])
  refine ⟨?_, ?_, ?_⟩
  · rw [recordsFor_length_cases, h1, h2]
    simp [hne]
  · intro r hr
    have hcode : r.stock_code = c := by
      have := List.of_mem_filter hr
      simpa using this
    have hrc : r ∈ compare_holdings ys ts := List.mem_of_mem_filter hr
    unfold compare_holdings at hrc
    rcases List.mem_append.mp hrc with h | h
    · rcases List.mem_append.mp h with hh | hh
      · obtain ⟨k, -, heq⟩ := List.mem_filterMap.mp hh
        obtain ⟨hld, hnone, -, rfl⟩ := addedRecord_eq_some heq
        rw [show k = c from hcode] at hnone
        rw [hnone] at h1; exact absurd h1 (by simp)
      · obtain ⟨k, -, heq⟩ := List.mem_filterMap.mp hh
        obtain ⟨hld, hnone, -, rfl⟩ := removedRecord_eq_some heq
        rw [show k = c from hcode] at hnone
        rw [hnone] at h2; exact absurd h2 (by simp)
    · obtain ⟨k, -, heq⟩ := List.mem_filterMap.mp h
      obtain ⟨oh, nh, hoh, hnh, -, rfl⟩ := modifiedRecord_eq_some heq
      rw [show k = c from hcode] at hoh hnh
      rw [h1] at hoh; rw [h2] at hnh
      obtain rfl : hy = oh := Option.some.inj hoh
      obtain rfl : ht = nh := Option.some.inj hnh
      have hng : ¬ (ht.getShares - hy.getShares > 0) := by
        rw [h3]; simp; exact le_of_lt h4
      simp [hng]
  · intro r hr htype
    unfold compare_holdings at hr
    rcases List.mem_append.mp hr with h | h
    · rcases List.mem_append.mp h with hh | hh
      · obtain ⟨k, -, heq⟩ := List.mem_filterMap.mp hh
        obtain ⟨hld, -, -, rfl⟩ := addedRecord_eq_some heq
        exact absurd htype (by simp)
      · obtain ⟨k, -, heq⟩ := List.mem_filterMap.mp hh
        obtain ⟨hld, hnone, -, rfl⟩ := removedRecord_eq_some heq
        exact hnone
    · obtain ⟨k, -, heq⟩ := List.mem_filterMap.mp h
      obtain ⟨oh, nh, -, -, -, rfl⟩ := modifiedRecord_eq_some heq
      by_cases hpos : nh.getShares - oh.getShares > 0 <;>
        simp [hpos] at htype

/-- C3 (amended): at the level of the exact decimal values the program's
floats approximate, every SHARES_UP/SHARES_DOWN record carries lot counts
that are the 2-decimal rounding of shares/1000, its lot delta is the
difference of the rounded lot values (not shares_diff/1000), and re-rounding
that delta leaves it unchanged.  Bit-for-bit on the binary64 floats the
re-rounding identity fails (see `lot_delta_roundtrip_counterexample`). -/
theorem modified_record_lot_delta (ys ts : List Holding) (r : HoldingChange)
    (hr : r ∈ compare_holdings ys ts)
    (htype : r.change_type = "SHARES_UP" ∨ r.change_type = "SHARES_DOWN") :
    ∃ os ns : ℤ, r.old_shares = some os ∧ r.new_shares = some ns ∧
      r.old_lots = some (round2 ((os : ℚ) / 1000)) ∧
      r.new_lots = some (round2 ((ns : ℚ) / 1000)) ∧
      r.lots_diff = some (round2 ((ns : ℚ) / 1000) - round2 ((os : ℚ) / 1000)) ∧
      round2 (round2 ((ns : ℚ) / 1000) - round2 ((os : ℚ) / 1000))
        = round2 ((ns : ℚ) / 1000) - round2 ((os : ℚ) / 1000) := by
  unfold compare_holdings at hr
  rcases List.mem_append.mp hr with h | h
  · rcases List.mem_append.mp h with hh | hh
    · obtain ⟨k, -, heq⟩ := List.mem_filterMap.mp hh
      obtain ⟨hld, -, -, rfl⟩ := addedRecord_eq_some heq
      rcases htype with ht' | ht' <;> exact absurd ht' (by simp)
    · obtain ⟨k, -, heq⟩ := List.mem_filterMap.mp hh
      obtain ⟨hld, -, -, rfl⟩ := removedRecord_eq_some heq
      rcases htype with ht' | ht' <;> exact absurd ht' (by simp)
  · obtain ⟨k, -, heq⟩ := List.mem_filterMap.mp h
    obtain ⟨oh, nh, -, -, -, rfl⟩ := modifiedRecord_eq_some heq
    refine ⟨oh.getShares, nh.getShares, rfl, rfl, ?_, ?_, ?_,
      round2_fixed_sub _ _⟩ <;> simp [shares_to_lots_eq]

/-! ### Missing `shares` keys (C10) -/

/-- Replace a missing (or explicit) `shares` value by the default `0` that
`holding.get('shares', 0)` yields. -/
def normalizeShares (h : Holding) : Holding :=
  { h with shares := some h.getShares }

lemma find?_map {α β : Type} (f : α → β) (p : β → Bool) (l : List α) :
    (l.map f).find? p = (l.find? (fun a => p (f a))).map f := by
  induction l with
  | nil => rfl
  | cons a t ih =>
    by_cases hp : p (f a)
    · simp [List.find?_cons, hp]
    · simp only [List.map_cons, List.find?_cons, hp]
      simpa [hp] using ih

lemma pyDictKeys_map_normalize (l : List Holding) :
    pyDictKeys (l.map normalizeShares) = pyDictKeys l := by
  induction l with
  | nil => rfl
  | cons h t ih => simp [pyDictKeys, ih, normalizeShares]

lemma pyDictGet_map_normalize (l : List Holding) (c : String) :
    pyDictGet (l.map normalizeShares) c = (pyDictGet l c).map normalizeShares := by
  unfold pyDictGet
  rw [← List.map_reverse, find?_map]
  rfl

lemma getShares_normalize (h : Holding) :
    (normalizeShares h).getShares = h.getShares := rfl

lemma addedRecord_normalize (ys ts : List Holding) (c : String) :
    addedRecord (ys.map normalizeShares) (ts.map normalizeShares) c
      = addedRecord ys ts c := by
  unfold addedRecord
  rw [pyDictGet_map_normalize, pyDictGet_map_normalize]
  cases pyDictGet ys c <;> cases pyDictGet ts c <;> rfl

lemma removedRecord_normalize (ys ts : List Holding) (c : String) :
    removedRecord (ys.map normalizeShares) (ts.map normalizeShares) c
      = removedRecord ys ts c := by
  unfold removedRecord
  rw [pyDictGet_map_normalize, pyDictGet_map_normalize]
  cases pyDictGet ys c <;> cases pyDictGet ts c <;> rfl

lemma modifiedRecord_normalize (ys ts : List Holding) (c : String) :
    modifiedRecord (ys.map normalizeShares) (ts.map normalizeShares) c
      = modifiedRecord ys ts c := by
  unfold modifiedRecord
  rw [pyDictGet_map_normalize, pyDictGet_map_normalize]
  cases pyDictGet ys c <;> cases pyDictGet ts c <;> rfl

/-- In the null-free fragment, a holding row without a `shares` key behaves
exactly as a row with `shares = 0` in all three comparison loops, and zero
shares convert to exactly 0.0 lots.  (Claim C10 itself is settled over the
general row model `HoldingRow` below, where a present `'shares': None` is
representable and `compare_holdings` raises.) -/
theorem compare_holdings_missing_shares (ys ts : List Holding) :
    compare_holdings (ys.map normalizeShares) (ts.map normalizeShares)
      = compare_holdings ys ts ∧ shares_to_lots 0 = 0 := by
  constructor
  · unfold compare_holdings
    rw [pyDictKeys_map_normalize, pyDictKeys_map_normalize,
      funext (addedRecord_normalize ys ts),
      funext (removedRecord_normalize ys ts),
      funext (modifiedRecord_normalize ys ts)]
  · rfl

/-! ### General holding rows with a nullable shares column (C10)

The snapshot store's `shares` column is nullable, so a row dict can carry
`'shares': None` — a present, falsy, non-integer value.  `holding.get(
'shares', 0)` then returns `None` (the default only covers a MISSING key),
`shares_to_lots`'s `if shares` guard treats `None` as falsy, but loop 3 of
`compare_holdings` computes `new_shares - old_shares` (line 109) before any
rounding, and `int - None`/`None - int` raises `TypeError`. -/

/-- The state of the `shares` key of a row dict: absent, present with
Python `None` (SQL NULL), or present with an integer. -/
inductive ShareVal where
  | missing
  | null
  | int (n : ℤ)
  deriving DecidableEq

/-- A holdings row over the full value space of the `shares` key. -/
structure HoldingRow where
  stock_code : String
  stock_name : String
  shares : ShareVal
  deriving DecidableEq

/-- `holding.get('shares', 0)`: the default `0` applies only when the key is
missing; a stored `None` comes back as `None` (here `none`). -/
def HoldingRow.getShares (h : HoldingRow) : Option Int :=
  match h.shares with
  | .missing => some 0
  | .null => none
  | .int n => some n

/-- `shares_to_lots` on a possibly-`None` argument: `None` and `0` are both
falsy, so both yield `0.0`. -/
def shares_to_lots_py (shares : Option Int) : ℚ :=
  match shares with
  | none => 0
  | some n => if n ≠ 0 then round2 ((n : ℚ) / 1000) else 0

/-- Key list of the dict comprehension over general rows. -/
def pyDictKeysRow : List HoldingRow → List String
  | [] => []
  | h :: t => h.stock_code :: (pyDictKeysRow t).filter (fun k => k ≠ h.stock_code)

/-- Dict lookup over general rows (last row with the key wins). -/
def pyDictGetRow (l : List HoldingRow) (code : String) : Option HoldingRow :=
  l.reverse.find? (fun h => h.stock_code == code)

/-- Loop 1 of `compare_holdings` over general rows: never raises; a `None`
share value is stored as-is in `new_shares` and rendered as 0.0 lots. -/
def addedRecordRow (yesterday_holdings today_holdings : List HoldingRow)
    (code : String) : Option HoldingChange :=
  match pyDictGetRow yesterday_holdings code, pyDictGetRow today_holdings code with
  | none, some holding =>
      some { change_type := "ADDED"
             stock_code := code
             stock_name := holding.stock_name
             new_shares := holding.getShares
             new_lots := some (shares_to_lots_py holding.getShares) }
  | _, _ => none

/-- Loop 2 of `compare_holdings` over general rows: never raises. -/
def removedRecordRow (yesterday_holdings today_holdings : List HoldingRow)
    (code : String) : Option HoldingChange :=
  match pyDictGetRow today_holdings code, pyDictGetRow yesterday_holdings code with
  | none, some holding =>
      some { change_type := "REMOVED"
             stock_code := code
             stock_name := holding.stock_name
             old_shares := holding.getShares
             old_lots := some (shares_to_lots_py holding.getShares) }
  | _, _ => none

/-- Loop 3 of `compare_holdings` over general rows for one key: the
subtraction `new_shares - old_shares` raises `TypeError` when either side is
`None`. -/
def modifiedRecordRow (yesterday_holdings today_holdings : List HoldingRow)
    (code : String) : Except String (Option HoldingChange) :=
  match pyDictGetRow yesterday_holdings code, pyDictGetRow today_holdings code with
  | some old_holding, some new_holding =>
    match old_holding.getShares, new_holding.getShares with
    | some old_shares, some new_shares =>
      let shares_diff := new_shares - old_shares
      let old_lots := shares_to_lots_py (some old_shares)
      let new_lots := shares_to_lots_py (some new_shares)
      let lots_diff := new_lots - old_lots
      if shares_diff ≠ 0 then
        .ok (some { change_type :=
                      if shares_diff > 0 then "SHARES_UP" else "SHARES_DOWN"
                    stock_code := code
                    stock_name := new_holding.stock_name
                    old_shares := some old_shares
                    new_shares := some new_shares
                    shares_diff := some shares_diff
                    old_lots := some old_lots
                    new_lots := some new_lots
                    lots_diff := some lots_diff })
      else .ok none
    | _, _ =>
      .error "TypeError: unsupported operand type(s) for -"
  | _, _ => .ok none

/-- Loop 3 over the key list: the first `TypeError` aborts the whole
comparison, as an uncaught exception does. -/
def modifiedRecordsRows (yesterday_holdings today_holdings : List HoldingRow) :
    List String → Except String (List HoldingChange)
  | [] => .ok []
  | code :: rest =>
    match modifiedRecordRow yesterday_holdings today_holdings code with
    | .error e => .error e
    | .ok none => modifiedRecordsRows yesterday_holdings today_holdings rest
    | .ok (some r) =>
      match modifiedRecordsRows yesterday_holdings today_holdings rest with
      | .error e => .error e
      | .ok l => .ok (r :: l)

/-- `compare_holdings` over general rows: loops 1 and 2 cannot raise, loop 3
raises on the first stock present in both snapshots whose stored share value
is `None` on either side; an uncaught raise discards the whole result. -/
def compare_holdings_rows (yesterday_holdings today_holdings : List HoldingRow) :
    Except String (List HoldingChange) :=
  match modifiedRecordsRows yesterday_holdings today_holdings
      (pyDictKeysRow yesterday_holdings) with
  | .error e => .error e
  | .ok modifieds =>
    .ok ((pyDictKeysRow today_holdings).filterMap
        (addedRecordRow yesterday_holdings today_holdings)
      ++ (pyDictKeysRow yesterday_holdings).filterMap
        (removedRecordRow yesterday_holdings today_holdings)
      ++ modifieds)

/-- Replace a missing `shares` key by the explicit integer 0 that
`get('shares', 0)` yields for it; `None` and integer values are kept. -/
def normMissingRow (h : HoldingRow) : HoldingRow :=
  { h with shares := match h.shares with
                     | .missing => .int 0
                     | s => s }

/-! ### detect_changes and the batch (C1, C4) -/

/-- C4 (amended): with no previous trading date the detector returns `None`
(`Except.ok none`): no error is raised and no record (in particular no ADDED
record) is produced, whatever the current snapshot holds. -/
theorem detect_changes_no_baseline (db : DB) (etf_code current_date : String)
    (h : db.get_previous_trading_date current_date etf_code = Except.ok none) :
    detect_changes db etf_code current_date = Except.ok none := by
  unfold detect_changes
  rw [h]
  rfl

lemma except_isOk_ok {ε α : Type} (a : α) :
    (Except.ok a : Except ε α).isOk = true := rfl

lemma except_isOk_error {ε α : Type} (e : ε) :
    (Except.error e : Except ε α).isOk = false := rfl

lemma except_isOk_pure {ε α : Type} (a : α) :
    (pure a : Except ε α).isOk = true := rfl

lemma detect_changes_batch_go_isOk (db : DB) (d : String)
    (codes : List String) :
    ∀ acc, (detect_changes_batch_go db d acc codes).isOk = true ↔
      ∀ e ∈ codes, (detect_changes db e d).isOk = true := by
  induction codes with
  | nil => intro acc; simp [detect_changes_batch_go, except_isOk_pure]
  | cons c rest ih =>
    intro acc
    unfold detect_changes_batch_go
    cases hdc : detect_changes db c d with
    | error msg =>
      simp [List.forall_mem_cons, hdc, except_isOk_error]
    | ok v =>
      cases v with
      | none =>
        rw [ih acc]
        simp [List.forall_mem_cons, hdc, except_isOk_ok]
      | some cs =>
        by_cases hemp : cs.isEmpty <;>
          simp [hemp, ih, List.forall_mem_cons, hdc, except_isOk_ok]

/-- C1 (amended): `detect_changes_batch` has no exception handling — the
batch call succeeds exactly when detection succeeds for every listed ETF, so
a single ETF's exception aborts the whole batch. -/
theorem detect_changes_batch_error_propagation (db : DB)
    (etf_codes : List String) (current_date : String) :
    (detect_changes_batch db etf_codes current_date).isOk = true ↔
      ∀ e ∈ etf_codes, (detect_changes db e current_date).isOk = true :=
  detect_changes_batch_go_isOk db current_date etf_codes []

/-- Database for the C1 scenario: three ETFs, the second one raising on
fetch, the others having a changed holding between the two dates. -/
def dbC1 : DB :=
  { get_previous_trading_date := fun _ e =>
      if e = "0051" then Except.error "db failure"
      else Except.ok (some "2024-01-09")
    get_holdings_by_date := fun d _ =>
      if d = "2024-01-09" then Except.ok [⟨"2330", "台積電", some 1000⟩]
      else Except.ok [⟨"2330", "台積電", some 2000⟩]
    get_active_etfs := [("0050", "元大台灣50")] }

/-- C1 counterexample: a batch of three ETFs whose second one raises during
fetch does NOT return a partial result for the first and third — the whole
batch call raises. -/
theorem detect_changes_batch_raises_counterexample :
    detect_changes_batch dbC1 ["0050", "0051", "0052"] "2024-01-10"
        = Except.error "db failure" ∧
      (detect_changes_batch dbC1 ["0050", "0051", "0052"] "2024-01-10").isOk
        = false :=
  ⟨rfl, rfl⟩

/-- Database for the C4 scenario: no previous trading date exists while the
current snapshot has two holdings. -/
def dbC4 : DB :=
  { get_previous_trading_date := fun _ _ => Except.ok none
    get_holdings_by_date := fun _ _ =>
      Except.ok [⟨"2330", "台積電", some 1000⟩, ⟨"2317", "鴻海", some 2000⟩]
    get_active_etfs := [] }

/-- C4 counterexample: with no baseline the detector returns `None`, not the
empty list the claim states. -/
theorem detect_changes_no_baseline_counterexample :
    detect_changes dbC4 "0050" "2024-01-10" = Except.ok none ∧
      detect_changes dbC4 "0050" "2024-01-10"
        ≠ Except.ok (some ([] : List HoldingChange)) :=
  ⟨rfl, fun h => Option.noConfusion (Except.ok.inj h)⟩

/-- Witness for the amended C4 theorem at the concrete database. -/
theorem detect_changes_no_baseline_witness :
    dbC4.get_previous_trading_date "2024-01-10" "0050" = Except.ok none ∧
      detect_changes dbC4 "0050" "2024-01-10" = Except.ok none :=
  ⟨rfl, detect_changes_no_baseline dbC4 "0050" "2024-01-10" rfl⟩

/-! ### Report generation on the empty ChangeSet (C2) -/

/-- C2 (amended): with an empty ChangeSet the report manager writes no
artifact at all (early return), even though the underlying text renderer,
called directly, does produce a fixed no-changes report. -/
theorem generate_all_reports_empty (db : DB) (date : String) :
    generate_all_reports [] date = [] ∧
      generate_report db [] date
        = "\n=== " ++ date ++ " ETF成分股變動報告 ===\n\n無變動\n" :=
  ⟨rfl, rfl⟩

/-- C2 counterexample: on the empty ChangeSet `generate_all_reports` writes
nothing — in particular no TXT artifact — instead of a no-changes artifact
per renderer. -/
theorem generate_all_reports_empty_counterexample :
    generate_all_reports [] "2024-01-10" = [] ∧
      Artifact.txt ∉ generate_all_reports [] "2024-01-10" :=
  ⟨rfl, by decide⟩

/-! ### Sorting lemmas -/

lemma insertLe_perm {α : Type} (le : α → α → Bool) (a : α) (l : List α) :
    (insertLe le a l).Perm (a :: l) := by
  induction l with
  | nil => exact List.Perm.refl _
  | cons b t ih =>
    unfold insertLe
    by_cases h : le a b
    · rw [if_pos h]
    · rw [if_neg h]
      exact (ih.cons b).trans (List.Perm.swap a b t)

lemma sortLe_perm {α : Type} (le : α → α → Bool) (l : List α) :
    (sortLe le l).Perm l := by
  induction l with
  | nil => exact List.Perm.refl _
  | cons a t ih =>
    exact (insertLe_perm le a (sortLe le t)).trans (ih.cons a)

lemma insertLe_pairwise {α : Type} {le : α → α → Bool}
    (htot : ∀ a b, le a b = true ∨ le b a = true)
    (htrans : ∀ a b c, le a b = true → le b c = true → le a c = true)
    (a : α) {l : List α} (hl : l.Pairwise (fun x y => le x y = true)) :
    (insertLe le a l).Pairwise (fun x y => le x y = true) := by
  induction l with
  | nil => simp [insertLe]
  | cons b t ih =>
    rcases List.pairwise_cons.mp hl with ⟨hb, ht⟩
    unfold insertLe
    by_cases h : le a b
    · rw [if_pos h]
      refine List.pairwise_cons.mpr ⟨?_, hl⟩
      intro x hx
      rcases List.mem_cons.mp hx with rfl | hxt
      · exact h
      · exact htrans a b x h (hb x hxt)
    · rw [if_neg h]
      refine List.pairwise_cons.mpr ⟨?_, ih ht⟩
      intro x hx
      have hx2 : x ∈ a :: t := (insertLe_perm le a t).mem_iff.mp hx
      rcases List.mem_cons.mp hx2 with hxa | hxt
      · subst hxa
        rcases htot x b with hab | hba
        · exact absurd hab h
        · exact hba
      · exact hb x hxt

lemma sortLe_pairwise {α : Type} {le : α → α → Bool}
    (htot : ∀ a b, le a b = true ∨ le b a = true)
    (htrans : ∀ a b c, le a b = true → le b c = true → le a c = true)
    (l : List α) :
    (sortLe le l).Pairwise (fun x y => le x y = true) := by
  induction l with
  | nil => simp [sortLe]
  | cons a t ih => exact insertLe_pairwise htot htrans a ih

lemma lexLeChars_cons_iff {a b : Char} {as bs : List Char} :
    lexLeChars (a :: as) (b :: bs) = true ↔
      a < b ∨ (a = b ∧ lexLeChars as bs = true) := by
  show (if a < b then true
    else if b < a then false else lexLeChars as bs) = true ↔ _
  rcases lt_trichotomy a b with h | h | h
  · rw [if_pos h]
    simp [h]
  · subst h
    rw [if_neg (lt_irrefl a), if_neg (lt_irrefl a)]
    simp
  · rw [if_neg (lt_asymm h), if_pos h]
    simp [lt_asymm h, ne_of_gt h]

lemma lexLeChars_total (a : List Char) :
    ∀ b, lexLeChars a b = true ∨ lexLeChars b a = true := by
  induction a with
  | nil => intro b; left; rfl
  | cons x xs ih =>
    intro b
    cases b with
    | nil => right; rfl
    | cons y ys =>
      rcases lt_trichotomy x y with h | h | h
      · exact Or.inl (lexLeChars_cons_iff.mpr (Or.inl h))
      · subst h
        rcases ih ys with h2 | h2
        · exact Or.inl (lexLeChars_cons_iff.mpr (Or.inr ⟨rfl, h2⟩))
        · exact Or.inr (lexLeChars_cons_iff.mpr (Or.inr ⟨rfl, h2⟩))
      · exact Or.inr (lexLeChars_cons_iff.mpr (Or.inl h))

lemma lexLeChars_trans (a : List Char) :
    ∀ b c, lexLeChars a b = true → lexLeChars b c = true →
      lexLeChars a c = true := by
  induction a with
  | nil => intro b c _ _; rfl
  | cons x xs ih =>
    intro b c hab hbc
    cases b with
    | nil => exact absurd hab (by simp [lexLeChars])
    | cons y ys =>
      cases c with
      | nil => exact absurd hbc (by simp [lexLeChars])
      | cons z zs =>
        rcases lexLeChars_cons_iff.mp hab with h1 | ⟨rfl, h1⟩
        · rcases lexLeChars_cons_iff.mp hbc with h2 | ⟨rfl, h2⟩
          · exact lexLeChars_cons_iff.mpr (Or.inl (lt_trans h1 h2))
          · exact lexLeChars_cons_iff.mpr (Or.inl h1)
        · rcases lexLeChars_cons_iff.mp hbc with h2 | ⟨rfl, h2⟩
          · exact lexLeChars_cons_iff.mpr (Or.inl h2)
          · exact lexLeChars_cons_iff.mpr (Or.inr ⟨rfl, ih ys zs h1 h2⟩)

lemma strLe_total (a b : String) : strLe a b = true ∨ strLe b a = true :=
  lexLeChars_total a.data b.data

lemma strLe_trans (a b c : String) :
    strLe a b = true → strLe b c = true → strLe a c = true :=
  lexLeChars_trans a.data b.data c.data

/-! ### Report index (C8, C9) -/

lemma set_same {α : Type} :
    ∀ (l : List α) (i : Nat) (a : α), l[i]? = some a → l.set i a = l
  | [], i, a, h => by simp at h
  | b :: t, 0, a, h => by
    simp only [List.getElem?_cons_zero, Option.some.injEq] at h
    rw [← h]; rfl
  | b :: t, i + 1, a, h => by
    simp only [List.getElem?_cons_succ] at h
    simpa [List.set] using set_same t i a h

lemma findIdx?_some_spec {α : Type} (p : α → Bool)
    (l : List α) (i : Nat) (h : l.findIdx? p = some i) :
    ∃ a, l[i]? = some a ∧ p a = true := by
  obtain ⟨hlt, hp, -⟩ := List.findIdx?_eq_some_iff_getElem.mp h
  exact ⟨l[i], by simp [List.getElem?_eq_getElem hlt], hp⟩

/-- Dates of the upserted (pre-sort) list are Nodup when the incoming ones
are. -/
lemma upsert_dates_nodup (reports : List ReportIndexEntry)
    (changes_dict : ChangesDict) (date : String)
    (hnd : (reports.map ReportIndexEntry.date).Nodup) :
    ((upsertReports reports changes_dict date).map
      ReportIndexEntry.date).Nodup := by
  unfold upsertReports
  cases hidx : reports.findIdx?
      (fun (r : ReportIndexEntry) => r.date == date) with
  | some i =>
    obtain ⟨a, ha, hpa⟩ := findIdx?_some_spec _ reports i hidx
    have hdate : a.date = date := by simpa using hpa
    have hmap : (reports.set i (mkIndexEntry changes_dict date)).map
        ReportIndexEntry.date = reports.map ReportIndexEntry.date := by
      rw [List.map_set]
      refine set_same _ _ _ ?_
      rw [List.getElem?_map, ha]
      simp [hdate, mkIndexEntry]
    simpa [hmap] using hnd
  | none =>
    rw [List.map_cons]
    refine List.Nodup.cons ?_ hnd
    intro hmem
    rw [List.mem_map] at hmem
    obtain ⟨r, hr, hrd⟩ := hmem
    have hfalse := List.findIdx?_eq_none_iff.mp hidx r hr
    rw [show (mkIndexEntry changes_dict date).date = date from rfl] at hrd
    rw [hrd] at hfalse
    simp at hfalse

/-- An upsert hitting an existing date keeps the index length. -/
lemma upsertReports_length_of_mem (reports : List ReportIndexEntry)
    (changes_dict : ChangesDict) (date : String)
    (he : ∃ e ∈ reports, e.date = date) :
    (upsertReports reports changes_dict date).length = reports.length := by
  unfold upsertReports
  cases hidx : reports.findIdx?
      (fun (r : ReportIndexEntry) => r.date == date) with
  | some i => exact List.length_set ..
  | none =>
    obtain ⟨e, hmem, hed⟩ := he
    have hfalse := List.findIdx?_eq_none_iff.mp hidx e hmem
    rw [hed] at hfalse
    simp at hfalse

/-- C8: after any index update the dates are pairwise distinct (given a
well-formed incoming index), the index holds at most 90 entries sorted by
date descending, and re-running for an already-present date replaces its
entry instead of appending one. -/
theorem update_reports_index_invariants (reports : List ReportIndexEntry)
    (changes_dict : ChangesDict) (date : String)
    (hnd : (reports.map ReportIndexEntry.date).Nodup) :
    (((update_reports_index reports changes_dict date).map
        ReportIndexEntry.date).Nodup) ∧
      (update_reports_index reports changes_dict date).length ≤ 90 ∧
      (update_reports_index reports changes_dict date).Pairwise
        (fun a b => strLe b.date a.date = true) ∧
      ((∃ e ∈ reports, e.date = date) →
        (update_reports_index reports changes_dict date).length
          = min reports.length 90) := by
  unfold update_reports_index
  refine ⟨?_, ?_, ?_, ?_⟩
  · have hperm := sortLe_perm
      (fun (x y : ReportIndexEntry) => strLe y.date x.date)
      (upsertReports reports changes_dict date)
    have h1 := upsert_dates_nodup reports changes_dict date hnd
    have h2 : ((sortLe (fun (x y : ReportIndexEntry) => strLe y.date x.date)
        (upsertReports reports changes_dict date)).map
        ReportIndexEntry.date).Nodup := ((hperm.map _).nodup_iff).mpr h1
    exact ((List.take_sublist 90 _).map _).nodup h2
  · simpa using List.length_take_le 90 _
  · refine List.Pairwise.sublist (List.take_sublist 90 _) ?_
    exact sortLe_pairwise
      (fun (a b : ReportIndexEntry) => strLe_total b.date a.date)
      (fun (a b c : ReportIndexEntry) h1 h2 =>
        strLe_trans c.date b.date a.date h2 h1) _
  · intro he
    rw [List.length_take]
    have hlen := (sortLe_perm
      (fun (x y : ReportIndexEntry) => strLe y.date x.date)
      (upsertReports reports changes_dict date)).length_eq
    rw [hlen, upsertReports_length_of_mem reports changes_dict date he,
      Nat.min_comm]

/-- C9: a present-but-unparseable index file is treated as an empty index
and the update succeeds, writing exactly the current date's entry. -/
theorem corrupt_index_self_heals (raw : String) (changes_dict : ChangesDict)
    (date : String) :
    update_reports_index (read_reports_index (IndexFile.corrupt raw))
        changes_dict date
      = [mkIndexEntry changes_dict date] := rfl

/-! ### Hot-stocks accumulation (C7) -/

lemma assocFind_cons {α : Type} (q : String × α) (t : List (String × α))
    (c : String) :
    assocFind (q :: t) c = if q.1 = c then some q.2 else assocFind t c := rfl

lemma assocFind_updateAgg {m : List (String × StockAgg)} {code : String}
    (f : StockAgg → StockAgg) (c : String) :
    assocFind (updateAgg m code f) c
      = if c = code then (assocFind m c).map f else assocFind m c := by
  induction m with
  | nil => simp [updateAgg, assocFind]
  | cons p t ih =>
    simp only [updateAgg, List.map_cons] at ih ⊢
    by_cases hpc : p.1 = code
    · by_cases hcp : p.1 = c
      · have hcc : c = code := hcp.symm.trans hpc
        simp [assocFind_cons, hpc, hcp, hcc]
      · have h1 : ¬ code = c := fun h => hcp (hpc.trans h)
        have h2 : ¬ c = code := fun h => h1 h.symm
        simp [assocFind_cons, hpc, hcp, ih, h1, h2]
    · by_cases hcp : p.1 = c
      · have hcc : ¬ c = code := fun h => hpc (hcp.trans h)
        simp [assocFind_cons, hpc, hcp, hcc]
      · simp [assocFind_cons, hpc, hcp, ih]

lemma assocFind_append_single (m : List (String × StockAgg)) (k : String)
    (v : StockAgg) (c : String) :
    assocFind (m ++ [(k, v)]) c
      = match assocFind m c with
        | some w => some w
        | none => if k = c then some v else none := by
  induction m with
  | nil => simp [assocFind, assocFind_cons]
  | cons p t ih =>
    by_cases hcp : p.1 = c <;> simp [assocFind_cons, hcp, ih]

lemma assocFind_isSome_iff {α : Type} (m : List (String × α)) (c : String) :
    (assocFind m c).isSome = true ↔ c ∈ m.map Prod.fst := by
  induction m with
  | nil => simp [assocFind]
  | cons p t ih =>
    by_cases hcp : p.1 = c
    · simp [assocFind_cons, hcp]
    · simp [assocFind_cons, hcp, ih, Ne.symm hcp]

lemma assocFind_of_mem_nodup {α : Type} {m : List (String × α)}
    {q : String × α} (hq : q ∈ m) (hnd : (m.map Prod.fst).Nodup) :
    assocFind m q.1 = some q.2 := by
  induction m with
  | nil => simp at hq
  | cons p t ih =>
    rw [List.map_cons] at hnd
    rcases List.mem_cons.mp hq with rfl | hqt
    · simp [assocFind_cons]
    · have hne : p.1 ≠ q.1 := by
        intro h
        exact (List.nodup_cons.mp hnd).1 (h ▸ List.mem_map_of_mem Prod.fst hqt)
      rw [assocFind_cons, if_neg hne]
      exact ih hqt (List.nodup_cons.mp hnd).2

/-- The up/down counter total stored in an optional aggregate. -/
def aggCount : Option StockAgg → Nat
  | some a => a.up_count + a.down_count
  | none => 0

/-- The running net lot change stored in an optional aggregate. -/
def aggNet : Option StockAgg → ℚ
  | some a => a.net_change
  | none => 0

/-- A record that is not an adjustment, or concerns another stock, leaves the
aggregate of stock `c` untouched. -/
lemma recordStockChange_find_other (info : List (String × String))
    (m : List (String × StockAgg)) (e : String) (r : HoldingChange)
    (c : String) (h : (isAdjustment r && r.stock_code == c) = false) :
    assocFind (recordStockChange info m e r) c = assocFind m c := by
  unfold recordStockChange
  by_cases hadj : isAdjustment r
  · have hcode : r.stock_code ≠ c := by
      intro hc
      rw [hadj] at h
      simp [hc] at h
    rw [if_pos hadj]
    dsimp only
    rw [assocFind_updateAgg, if_neg (fun hcc => hcode hcc.symm)]
    by_cases hfound : (assocFind m r.stock_code).isSome
    · rw [if_pos hfound]
    · rw [if_neg hfound, assocFind_append_single]
      cases hc : assocFind m c with
      | some w => rfl
      | none => simp [fun hcc => hcode hcc]
  · rw [if_neg hadj]

/-- An adjustment record bumps its stock's record count by one, adds its lot
delta to the running net change, and guarantees the key is present. -/
lemma recordStockChange_find_self (info : List (String × String))
    (m : List (String × StockAgg)) (e : String) (r : HoldingChange)
    (hadj : isAdjustment r = true) :
    aggCount (assocFind (recordStockChange info m e r) r.stock_code)
        = aggCount (assocFind m r.stock_code) + 1 ∧
      aggNet (assocFind (recordStockChange info m e r) r.stock_code)
        = aggNet (assocFind m r.stock_code) + r.lots_diff.getD 0 ∧
      (assocFind (recordStockChange info m e r) r.stock_code).isSome = true := by
  unfold recordStockChange
  rw [if_pos hadj]
  dsimp only
  cases hfind : assocFind m r.stock_code with
  | some a =>
    have hsome : ((some a : Option StockAgg).isSome = true) := rfl
    rw [assocFind_updateAgg, if_pos rfl, if_pos hsome, hfind]
    refine ⟨?_, ?_, rfl⟩
    · by_cases hup : r.change_type == "SHARES_UP" <;>
        simp [aggCount, hup] <;> omega
    · simp [aggNet]
  | none =>
    have hnone : ¬ ((none : Option StockAgg).isSome = true) := by simp
    rw [assocFind_updateAgg, if_pos rfl, if_neg hnone,
      assocFind_append_single, hfind]
    dsimp only
    rw [if_pos rfl]
    refine ⟨?_, ?_, rfl⟩
    · by_cases hup : r.change_type == "SHARES_UP" <;> simp [aggCount, hup]
    · simp [aggNet]

/-- Folding a stream of (etf_code, record) pairs: for each stock the
aggregate counts exactly the adjustment records with its code and sums their
lot deltas, and the key exists exactly when such a record was seen. -/
lemma stock_fold_spec (info : List (String × String)) :
    ∀ (stream : List (String × HoldingChange))
      (m : List (String × StockAgg)) (c : String),
      aggCount (assocFind (stream.foldl
          (fun acc pc => recordStockChange info acc pc.1 pc.2) m) c)
        = aggCount (assocFind m c)
          + ((stream.map (fun pc => pc.2)).filter
              (fun r => isAdjustment r && r.stock_code == c)).length ∧
      aggNet (assocFind (stream.foldl
          (fun acc pc => recordStockChange info acc pc.1 pc.2) m) c)
        = aggNet (assocFind m c)
          + (((stream.map (fun pc => pc.2)).filter
              (fun r => isAdjustment r && r.stock_code == c)).map
              (fun r => r.lots_diff.getD 0)).sum ∧
      ((assocFind (stream.foldl
          (fun acc pc => recordStockChange info acc pc.1 pc.2) m) c).isSome
          = true ↔
        (assocFind m c).isSome = true ∨
          ((stream.map (fun pc => pc.2)).filter
            (fun r => isAdjustment r && r.stock_code == c)) ≠ []) := by
  intro stream
  induction stream with
  | nil => intro m c; simp
  | cons pc rest ih =>
    intro m c
    rw [List.foldl_cons, List.map_cons, List.filter_cons]
    by_cases hrel : (isAdjustment pc.2 && pc.2.stock_code == c) = true
    · rw [Bool.and_eq_true] at hrel
      obtain ⟨hadj, hbeq⟩ := hrel
      have hrel2 : (isAdjustment pc.2 && pc.2.stock_code == c) = true := by
        rw [Bool.and_eq_true]; exact ⟨hadj, hbeq⟩
      have hcode : pc.2.stock_code = c := eq_of_beq hbeq
      rw [if_pos hrel2]
      subst hcode
      obtain ⟨hc1, hc2, hc3⟩ :=
        recordStockChange_find_self info m pc.1 pc.2 hadj
      obtain ⟨ih1, ih2, ih3⟩ :=
        ih (recordStockChange info m pc.1 pc.2) pc.2.stock_code
      refine ⟨?_, ?_, ?_⟩
      · rw [ih1, hc1, List.length_cons]
        omega
      · rw [ih2, hc2, List.map_cons, List.sum_cons]
        ring
      · rw [ih3, hc3]
        simp
    · have hfalse : (isAdjustment pc.2 && pc.2.stock_code == c) = false :=
        Bool.eq_false_iff.mpr hrel
      rw [if_neg hrel]
      have heq := recordStockChange_find_other info m pc.1 pc.2 c hfalse
      obtain ⟨ih1, ih2, ih3⟩ :=
        ih (recordStockChange info m pc.1 pc.2) c
      exact ⟨by rw [ih1, heq], by rw [ih2, heq], by rw [ih3, heq]⟩

lemma updateAgg_keys (m : List (String × StockAgg)) (code : String)
    (f : StockAgg → StockAgg) :
    (updateAgg m code f).map Prod.fst = m.map Prod.fst := by
  induction m with
  | nil => rfl
  | cons p t ih =>
    simp only [updateAgg, List.map_cons] at ih ⊢
    by_cases hpc : p.1 = code <;> simp [hpc, ih]

lemma recordStockChange_keys_nodup (info : List (String × String))
    (m : List (String × StockAgg)) (e : String) (r : HoldingChange)
    (hnd : (m.map Prod.fst).Nodup) :
    ((recordStockChange info m e r).map Prod.fst).Nodup := by
  unfold recordStockChange
  by_cases hadj : isAdjustment r
  · rw [if_pos hadj]
    dsimp only
    rw [updateAgg_keys]
    by_cases hfound : (assocFind m r.stock_code).isSome = true
    · rw [if_pos hfound]; exact hnd
    · rw [if_neg hfound, List.map_append]
      refine List.Nodup.append hnd (List.nodup_singleton _) ?_
      intro a ha hb
      simp only [List.map_cons, List.map_nil, List.mem_singleton] at hb
      subst hb
      exact hfound ((assocFind_isSome_iff m _).mpr ha)
  · rw [if_neg hadj]; exact hnd

lemma fold_keys_nodup (info : List (String × String)) :
    ∀ (stream : List (String × HoldingChange))
      (m : List (String × StockAgg)),
      (m.map Prod.fst).Nodup →
      ((stream.foldl (fun acc pc => recordStockChange info acc pc.1 pc.2)
        m).map Prod.fst).Nodup := by
  intro stream
  induction stream with
  | nil => intro m h; simpa using h
  | cons pc rest ih =>
    intro m h
    rw [List.foldl_cons]
    exact ih _ (recordStockChange_keys_nodup info m pc.1 pc.2 h)

lemma changeStream_snd (cd : ChangesDict) :
    (changeStream cd).map (fun pc => pc.2) = cd.flatMap (fun p => p.2) := by
  unfold changeStream
  induction cd with
  | nil => rfl
  | cons p t ih =>
    simp only [List.flatMap_cons, List.map_append, ih, List.map_map]
    congr 1
    simp [Function.comp]

lemma enrich_mem (eh : Option (List EtfBundle))
    (m : List (String × StockAgg)) (q : String × StockAgg)
    (hq : q ∈ enrichStockChanges eh m) :
    ∃ q0 ∈ m, q.1 = q0.1 ∧ q.2.up_count = q0.2.up_count ∧
      q.2.down_count = q0.2.down_count ∧
      q.2.net_change = q0.2.net_change := by
  cases eh with
  | none => exact ⟨q, hq, rfl, rfl, rfl, rfl⟩
  | some bundles =>
    unfold enrichStockChanges at hq
    rw [List.mem_map] at hq
    obtain ⟨q0, hq0, heq⟩ := hq
    rw [← heq]
    exact ⟨q0, hq0, rfl, rfl, rfl, rfl⟩

lemma enrich_keys (eh : Option (List EtfBundle))
    (m : List (String × StockAgg)) :
    (enrichStockChanges eh m).map Prod.fst = m.map Prod.fst := by
  cases eh with
  | none => rfl
  | some bundles =>
    unfold enrichStockChanges
    rw [List.map_map]
    rfl

lemma sum_cent (l : List ℚ) (h : ∀ q ∈ l, ∃ k : ℤ, q = (k : ℚ) / 100) :
    ∃ K : ℤ, l.sum = (K : ℚ) / 100 := by
  induction l with
  | nil => exact ⟨0, by simp⟩
  | cons q t ih =>
    obtain ⟨k, hk⟩ := h q (List.mem_cons_self q t)
    obtain ⟨K, hK⟩ := ih (fun x hx => h x (List.mem_cons_of_mem q hx))
    refine ⟨k + K, ?_⟩
    rw [List.sum_cons, hk, hK]
    push_cast
    ring

/-- C7: the hot-stocks list groups only SHARES_UP/SHARES_DOWN records by
stock, ranks by record count descending, keeps at most 10 entries, and each
entry carries the record count as `total_adjustments` and the running sum of
the lot deltas as `net_change` (the final 2-decimal rounding is the identity
because every lot delta is a whole number of hundredths). -/
theorem hot_stocks_spec (etf_info_dict : List (String × String))
    (changes_dict : ChangesDict) (etf_holdings : Option (List EtfBundle))
    (hcent : ∀ r ∈ changes_dict.flatMap (fun p => p.2),
      ∃ k : ℤ, r.lots_diff.getD 0 = (k : ℚ) / 100) :
    (generate_dashboard_hot_stocks etf_info_dict changes_dict
      etf_holdings).length ≤ 10 ∧
    (generate_dashboard_hot_stocks etf_info_dict changes_dict
      etf_holdings).Pairwise
        (fun a b => b.total_adjustments ≤ a.total_adjustments) ∧
    (∀ e ∈ generate_dashboard_hot_stocks etf_info_dict changes_dict
        etf_holdings,
      e.total_adjustments
          = (adjustmentRecordsFor changes_dict e.stock_code).length ∧
        e.net_change = ((adjustmentRecordsFor changes_dict e.stock_code).map
          (fun r => r.lots_diff.getD 0)).sum) ∧
    (∀ c : String, adjustmentRecordsFor changes_dict c ≠ [] ↔
      ∃ e ∈ hot_stocks_all etf_info_dict changes_dict etf_holdings,
        e.stock_code = c) := by
  have hS : stock_changes_of etf_info_dict changes_dict
      = (changeStream changes_dict).foldl
        (fun m pc => recordStockChange etf_info_dict m pc.1 pc.2) [] := rfl
  have hndS : ((stock_changes_of etf_info_dict changes_dict).map
      Prod.fst).Nodup := by
    rw [hS]
    exact fold_keys_nodup etf_info_dict (changeStream changes_dict) [] (by simp)
  have hspec : ∀ c : String,
      aggCount (assocFind (stock_changes_of etf_info_dict changes_dict) c)
        = (adjustmentRecordsFor changes_dict c).length ∧
      aggNet (assocFind (stock_changes_of etf_info_dict changes_dict) c)
        = ((adjustmentRecordsFor changes_dict c).map
            (fun r => r.lots_diff.getD 0)).sum ∧
      ((assocFind (stock_changes_of etf_info_dict changes_dict) c).isSome
          = true ↔ adjustmentRecordsFor changes_dict c ≠ []) := by
    intro c
    obtain ⟨h1, h2, h3⟩ := stock_fold_spec etf_info_dict
      (changeStream changes_dict) [] c
    rw [changeStream_snd] at h1 h2 h3
    rw [← hS] at h1 h2 h3
    refine ⟨?_, ?_, ?_⟩
    · simpa [assocFind, aggCount, adjustmentRecordsFor] using h1
    · simpa [assocFind, aggNet, adjustmentRecordsFor] using h2
    · simpa [assocFind, adjustmentRecordsFor] using h3
  have hmem_fields : ∀ e ∈ hot_stocks_all etf_info_dict changes_dict
      etf_holdings,
      e.total_adjustments
          = (adjustmentRecordsFor changes_dict e.stock_code).length ∧
        e.net_change = ((adjustmentRecordsFor changes_dict e.stock_code).map
          (fun r => r.lots_diff.getD 0)).sum := by
    intro e he
    have he3 : e ∈ (enrichStockChanges etf_holdings
        (stock_changes_of etf_info_dict changes_dict)).map mkHotStock :=
      (sortLe_perm _ _).subset he
    obtain ⟨q, hq, rfl⟩ := List.mem_map.mp he3
    obtain ⟨q0, hq0, hkey, hup, hdown, hnet⟩ :=
      enrich_mem etf_holdings _ q hq
    have hfind : assocFind (stock_changes_of etf_info_dict changes_dict) q0.1
        = some q0.2 := assocFind_of_mem_nodup hq0 hndS
    obtain ⟨hcount, hnetS, -⟩ := hspec q0.1
    rw [hfind] at hcount hnetS
    have hcode : (mkHotStock q).stock_code = q0.1 := by
      simp [mkHotStock, hkey]
    rw [hcode]
    constructor
    · show q.2.up_count + q.2.down_count = _
      rw [hup, hdown]
      simpa [aggCount] using hcount
    · show round2 q.2.net_change = _
      rw [hnet]
      have hval : q0.2.net_change = ((adjustmentRecordsFor changes_dict
          q0.1).map (fun r => r.lots_diff.getD 0)).sum := by
        simpa [aggNet] using hnetS
      rw [hval]
      obtain ⟨K, hK⟩ := sum_cent
        ((adjustmentRecordsFor changes_dict q0.1).map
          (fun r => r.lots_diff.getD 0)) (by
        intro x hx
        rw [List.mem_map] at hx
        obtain ⟨r, hr, rfl⟩ := hx
        have hr2 : r ∈ (changes_dict.flatMap (fun p => p.2)).filter
            (fun x => isAdjustment x && x.stock_code == q0.1) := hr
        exact hcent r (List.mem_of_mem_filter hr2))
      rw [hK]
      exact round2_cent K
  refine ⟨?_, ?_, ?_, ?_⟩
  · exact List.length_take_le 10 _
  · refine List.Pairwise.sublist (List.take_sublist 10 _) ?_
    have hpw := @sortLe_pairwise HotStock
      (fun x y => decide (y.total_adjustments ≤ x.total_adjustments))
      (fun a b => by
        rcases Nat.le_total b.total_adjustments a.total_adjustments with h | h
        · exact Or.inl (decide_eq_true h)
        · exact Or.inr (decide_eq_true h))
      (fun a b c h1 h2 => decide_eq_true
        (Nat.le_trans (of_decide_eq_true h2) (of_decide_eq_true h1)))
      ((enrichStockChanges etf_holdings
        (stock_changes_of etf_info_dict changes_dict)).map mkHotStock)
    exact hpw.imp (fun h => of_decide_eq_true h)
  · intro e he
    exact hmem_fields e ((List.take_sublist 10 _).subset he)
  · intro c
    obtain ⟨-, -, hiff⟩ := hspec c
    constructor
    · intro hne
      have hsome := hiff.mpr hne
      rw [assocFind_isSome_iff, ← enrich_keys etf_holdings] at hsome
      rw [List.mem_map] at hsome
      obtain ⟨q, hq, hq1⟩ := hsome
      refine ⟨mkHotStock q, ?_, hq1⟩
      exact (sortLe_perm _ _).mem_iff.mpr (List.mem_map_of_mem mkHotStock hq)
    · rintro ⟨e, he, hec⟩
      apply hiff.mp
      have he3 : e ∈ (enrichStockChanges etf_holdings
          (stock_changes_of etf_info_dict changes_dict)).map mkHotStock :=
        (sortLe_perm _ _).subset he
      obtain ⟨q, hq, rfl⟩ := List.mem_map.mp he3
      rw [assocFind_isSome_iff, ← enrich_keys etf_holdings]
      have : (mkHotStock q).stock_code = q.1 := rfl
      rw [← hec, this]
      exact List.mem_map_of_mem Prod.fst hq

/-! ### Binary64 float semantics (C3)

The program stores lot counts in Python floats.  A finite binary64 float is
exactly a value `m * 2^e` with `|m| < 2^53`; every arithmetic operation
rounds its exact result to 53 significant bits, to nearest with ties to the
even mantissa.  CPython's `round(x, 2)` on a float is correctly rounded: it
rounds the EXACT binary value of `x` to 2 decimal places (half to even) and
returns the float nearest that decimal.  Everything below is integer
arithmetic, so concrete computations reduce under `decide`. -/

/-- A finite binary64 value `m * 2^e`.  Results of `mkFloatE` carry a
normalized mantissa (`2^52 ≤ |m| ≤ 2^53`, or `m = 0`), so equal floats have
equal representations. -/
structure Float64 where
  m : ℤ
  e : ℤ
  deriving DecidableEq

/-- The real value of a binary64 float. -/
def Float64.val (x : Float64) : ℚ := (x.m : ℚ) * (2 : ℚ) ^ x.e

/-- Floor division and half-even rounding of `a / b` for `b > 0`, in
integers (`ediv`/`emod` are floor division/remainder for a positive
divisor). -/
def intRoundHalfEvenDiv (a b : ℤ) : ℤ :=
  let d := a.ediv b
  let r := a.emod b
  if 2 * r < b then d
  else if b < 2 * r then d + 1
  else if d.emod 2 = 0 then d else d + 1

/-- Scale a positive fraction `(a / b) * 2^e` (value preserved) until the
fraction part lies in `[2^52, 2^53)`.  The fuel bounds the loop; 1200 steps
cover the whole binary64 exponent range. -/
def floatNorm : Nat → ℤ → ℤ → ℤ → ℤ × ℤ × ℤ
  | 0, a, b, e => (a, b, e)
  | fuel + 1, a, b, e =>
    if a < 2 ^ 52 * b then floatNorm fuel (a * 2) b (e - 1)
    else if 2 ^ 53 * b ≤ a then floatNorm fuel a (b * 2) (e + 1)
    else (a, b, e)

/-- The binary64 float nearest to `(a / b) * 2^e0` (`b > 0`), ties to even:
normalize the magnitude so the scaled fraction is a 53-bit mantissa, then
round it half-to-even. -/
def mkFloatE (a b : ℤ) (e0 : ℤ) : Float64 :=
  if a = 0 then ⟨0, 0⟩
  else if a < 0 then
    let p := floatNorm 1200 (-a) b e0
    ⟨-(intRoundHalfEvenDiv p.1 p.2.1), p.2.2⟩
  else
    let p := floatNorm 1200 a b e0
    ⟨intRoundHalfEvenDiv p.1 p.2.1, p.2.2⟩

/-- The binary64 float nearest to the rational `a / b`: the result of
Python's correctly rounded int/int true division (and of an int-to-float
conversion when `b = 1`). -/
def mkFloatPy (a b : ℤ) : Float64 := mkFloatE a b 0

/-- Binary64 subtraction: the difference of two floats is computed exactly
(both brought to the smaller exponent) and rounded back to 53 bits. -/
def fsubF (x y : Float64) : Float64 :=
  let e := min x.e y.e
  mkFloatE (x.m * 2 ^ (x.e - e).toNat - y.m * 2 ^ (y.e - e).toNat) 1 e

/-- CPython `round(x, 2)` on a float: half-even decimal rounding of the
exact binary value, then the nearest float. -/
def pyRound2F (x : Float64) : Float64 :=
  let cents :=
    if 0 ≤ x.e then x.m * 100 * 2 ^ x.e.toNat
    else intRoundHalfEvenDiv (x.m * 100) (2 ^ (-x.e).toNat)
  mkFloatPy cents 100

/-- `HoldingsAnalyzer.shares_to_lots` at the bit level:
`round(shares / 1000, 2) if shares else 0.0` with binary64 arithmetic. -/
def shares_to_lots_f (shares : ℤ) : Float64 :=
  if shares ≠ 0 then pyRound2F (mkFloatPy shares 1000) else ⟨0, 0⟩

/-- Lines 107-113 of holdings_analyzer.py for a stock present in both
snapshots, at the bit level: the lot delta the modified record stores is the
binary64 difference of the two rounded lot values. -/
def lots_diff_f (old_shares new_shares : ℤ) : Float64 :=
  fsubF (shares_to_lots_f new_shares) (shares_to_lots_f old_shares)

set_option maxRecDepth 20000

/-- C3 counterexample: for the snapshots yesterday = [("2313", 100 shares)],
today = [("2313", 300 shares)], the modified record the program builds has
old_lots = 0.1, new_lots = 0.3 and lots_diff = 0.3 - 0.1
= 0.19999999999999998 (the float below 0.2), so
`round(new_lots - old_lots, 2) == lots_diff` is False: the claimed identity
fails bit-for-bit on the program's floats. -/
theorem lot_delta_roundtrip_counterexample :
    pyRound2F (lots_diff_f 100 300) ≠ lots_diff_f 100 300 ∧
      shares_to_lots_f 100 = mkFloatPy 1 10 ∧
      shares_to_lots_f 300 = mkFloatPy 3 10 ∧
      pyRound2F (lots_diff_f 100 300) = mkFloatPy 1 5 := by
  refine ⟨by decide, by decide, by decide, by decide⟩

/-! ### The nullable shares column: C10 theorems -/

lemma getShares_normMissingRow (h : HoldingRow) :
    (normMissingRow h).getShares = h.getShares := by
  cases h with
  | mk c n s => cases s <;> rfl

lemma pyDictKeysRow_map_norm (l : List HoldingRow) :
    pyDictKeysRow (l.map normMissingRow) = pyDictKeysRow l := by
  induction l with
  | nil => rfl
  | cons h t ih => simp [pyDictKeysRow, ih, normMissingRow]

lemma pyDictGetRow_map_norm (l : List HoldingRow) (c : String) :
    pyDictGetRow (l.map normMissingRow) c
      = (pyDictGetRow l c).map normMissingRow := by
  unfold pyDictGetRow
  rw [← List.map_reverse, find?_map]
  rfl

lemma addedRecordRow_norm (ys ts : List HoldingRow) (c : String) :
    addedRecordRow (ys.map normMissingRow) (ts.map normMissingRow) c
      = addedRecordRow ys ts c := by
  unfold addedRecordRow
  rw [pyDictGetRow_map_norm, pyDictGetRow_map_norm]
  cases pyDictGetRow ys c <;> cases pyDictGetRow ts c <;>
    simp only [Option.map_none', Option.map_some'] <;> try rfl
  rw [getShares_normMissingRow]
  rfl

lemma removedRecordRow_norm (ys ts : List HoldingRow) (c : String) :
    removedRecordRow (ys.map normMissingRow) (ts.map normMissingRow) c
      = removedRecordRow ys ts c := by
  unfold removedRecordRow
  rw [pyDictGetRow_map_norm, pyDictGetRow_map_norm]
  cases pyDictGetRow ts c <;> cases pyDictGetRow ys c <;>
    simp only [Option.map_none', Option.map_some'] <;> try rfl
  rw [getShares_normMissingRow]
  rfl

lemma modifiedRecordRow_norm (ys ts : List HoldingRow) (c : String) :
    modifiedRecordRow (ys.map normMissingRow) (ts.map normMissingRow) c
      = modifiedRecordRow ys ts c := by
  unfold modifiedRecordRow
  rw [pyDictGetRow_map_norm, pyDictGetRow_map_norm]
  cases pyDictGetRow ys c <;> cases pyDictGetRow ts c <;>
    simp only [Option.map_none', Option.map_some'] <;> try rfl
  rw [getShares_normMissingRow, getShares_normMissingRow]
  rfl

lemma modifiedRecordsRows_norm (ys ts : List HoldingRow) :
    ∀ keys, modifiedRecordsRows (ys.map normMissingRow)
        (ts.map normMissingRow) keys
      = modifiedRecordsRows ys ts keys := by
  intro keys
  induction keys with
  | nil => rfl
  | cons c rest ih =>
    unfold modifiedRecordsRows
    rw [modifiedRecordRow_norm ys ts c, ih]

lemma compare_holdings_rows_norm (ys ts : List HoldingRow) :
    compare_holdings_rows (ys.map normMissingRow) (ts.map normMissingRow)
      = compare_holdings_rows ys ts := by
  unfold compare_holdings_rows
  rw [pyDictKeysRow_map_norm, pyDictKeysRow_map_norm,
    modifiedRecordsRows_norm ys ts,
    funext (addedRecordRow_norm ys ts),
    funext (removedRecordRow_norm ys ts)]

lemma pyDictGetRow_mem {l : List HoldingRow} {c : String} {h : HoldingRow}
    (hg : pyDictGetRow l c = some h) : h ∈ l := by
  unfold pyDictGetRow at hg
  exact List.mem_reverse.mp (List.mem_of_find?_eq_some hg)

lemma modifiedRecordRow_ok (ys ts : List HoldingRow) (c : String)
    (hys : ∀ h ∈ ys, h.shares ≠ ShareVal.null)
    (hts : ∀ h ∈ ts, h.shares ≠ ShareVal.null) :
    ∃ v, modifiedRecordRow ys ts c = .ok v := by
  unfold modifiedRecordRow
  cases g1 : pyDictGetRow ys c with
  | none => exact ⟨none, rfl⟩
  | some oh =>
    cases g2 : pyDictGetRow ts c with
    | none => exact ⟨none, rfl⟩
    | some nh =>
      obtain ⟨n1, hn1⟩ : ∃ n1, oh.getShares = some n1 := by
        have hnull := hys oh (pyDictGetRow_mem g1)
        cases hsh : oh.shares with
        | missing => exact ⟨0, by simp [HoldingRow.getShares, hsh]⟩
        | null => exact absurd hsh hnull
        | int n => exact ⟨n, by simp [HoldingRow.getShares, hsh]⟩
      obtain ⟨n2, hn2⟩ : ∃ n2, nh.getShares = some n2 := by
        have hnull := hts nh (pyDictGetRow_mem g2)
        cases hsh : nh.shares with
        | missing => exact ⟨0, by simp [HoldingRow.getShares, hsh]⟩
        | null => exact absurd hsh hnull
        | int n => exact ⟨n, by simp [HoldingRow.getShares, hsh]⟩
      dsimp only
      rw [hn1, hn2]
      dsimp only
      by_cases hd : n2 - n1 ≠ 0
      · exact ⟨_, by rw [if_pos hd]⟩
      · exact ⟨none, by rw [if_neg hd]⟩

lemma modifiedRecordsRows_ok (ys ts : List HoldingRow)
    (hok : ∀ c, ∃ v, modifiedRecordRow ys ts c = .ok v) :
    ∀ keys, ∃ l, modifiedRecordsRows ys ts keys = .ok l := by
  intro keys
  induction keys with
  | nil => exact ⟨[], rfl⟩
  | cons c rest ih =>
    obtain ⟨v, hv⟩ := hok c
    obtain ⟨l, hl⟩ := ih
    unfold modifiedRecordsRows
    rw [hv]
    cases v with
    | none => exact ⟨l, hl⟩
    | some r => rw [hl]; exact ⟨r :: l, rfl⟩

/-- C10 (amended): a row lacking a `shares` key never causes a raise — it
behaves exactly as a row with the explicit integer 0 in all three loops, and
both a missing value and 0 convert to exactly 0.0 lots; on inputs free of
stored `None` share values the comparison always returns normally.  (When a
stock present in both snapshots has a stored `None` on either side, the
subtraction in loop 3 raises `TypeError` — see the counterexample.) -/
theorem compare_holdings_rows_missing_shares (ys ts : List HoldingRow) :
    (shares_to_lots_py (some 0) = 0 ∧ shares_to_lots_py none = 0) ∧
      compare_holdings_rows (ys.map normMissingRow) (ts.map normMissingRow)
        = compare_holdings_rows ys ts ∧
      ((∀ h ∈ ys, h.shares ≠ ShareVal.null) →
        (∀ h ∈ ts, h.shares ≠ ShareVal.null) →
        ∃ l, compare_holdings_rows ys ts = Except.ok l) := by
  refine ⟨⟨rfl, rfl⟩, compare_holdings_rows_norm ys ts, ?_⟩
  intro hys hts
  obtain ⟨l, hl⟩ := modifiedRecordsRows_ok ys ts
    (fun c => modifiedRecordRow_ok ys ts c hys hts) (pyDictKeysRow ys)
  unfold compare_holdings_rows
  rw [hl]
  exact ⟨_, rfl⟩

/-- Yesterday snapshot for the C10 counterexample: the `shares` key is
present but holds `None` (a SQL NULL). -/
def ysC10 : List HoldingRow := [⟨"2330", "台積電", ShareVal.null⟩]

/-- Today snapshot for the C10 counterexample: same stock, integer shares. -/
def tsC10 : List HoldingRow := [⟨"2330", "台積電", ShareVal.int 1000⟩]

/-- C10 counterexample: with a falsy `None` share value for a stock present
in both snapshots, `compare_holdings` DOES raise (`1000 - None` is a
`TypeError`), so the claim's "never raises ... treated as 0 in all three
branches" fails for falsy share values. -/
theorem compare_holdings_rows_null_counterexample :
    compare_holdings_rows ysC10 tsC10
        = Except.error "TypeError: unsupported operand type(s) for -" ∧
      (compare_holdings_rows ysC10 tsC10).isOk = false :=
  ⟨rfl, rfl⟩

/-- Null-free concrete rows for the C10 witness (one missing key). -/
def rowsC10y : List HoldingRow := [⟨"2330", "台積電", ShareVal.missing⟩]

/-- Today-side rows for the C10 witness. -/
def rowsC10t : List HoldingRow := [⟨"2330", "台積電", ShareVal.int 2000⟩]

/-- Witness for the amended C10 theorem at concrete null-free rows. -/
theorem compare_holdings_rows_missing_shares_witness :
    (∀ h ∈ rowsC10y, h.shares ≠ ShareVal.null) ∧
      (∀ h ∈ rowsC10t, h.shares ≠ ShareVal.null) ∧
      ∃ l, compare_holdings_rows rowsC10y rowsC10t = Except.ok l :=
  ⟨by decide, by decide,
    (compare_holdings_rows_missing_shares rowsC10y rowsC10t).2.2
      (by decide) (by decide)⟩

/-! ### Concrete witnesses -/

/-- Yesterday snapshot for the C3 witness (one stock, 5,013,000 shares). -/
def ysC3 : List Holding := [⟨"2313", "華通", some 5013000⟩]

/-- Today snapshot for the C3 witness (same stock, 1,473,000 shares). -/
def tsC3 : List Holding := [⟨"2313", "華通", some 1473000⟩]

/-- The one record `compare_holdings ysC3 tsC3` produces. -/
def recC3 : HoldingChange :=
  { change_type := "SHARES_DOWN"
    stock_code := "2313"
    stock_name := "華通"
    old_shares := some 5013000
    new_shares := some 1473000
    shares_diff := some (-3540000)
    old_lots := some (shares_to_lots 5013000)
    new_lots := some (shares_to_lots 1473000)
    lots_diff := some (shares_to_lots 1473000 - shares_to_lots 5013000) }

/-- Witness for C3 at a concrete modified record. -/
theorem modified_record_lot_delta_witness :
    recC3 ∈ compare_holdings ysC3 tsC3 ∧
      (recC3.change_type = "SHARES_UP" ∨ recC3.change_type = "SHARES_DOWN") ∧
      ∃ os ns : ℤ, recC3.old_shares = some os ∧ recC3.new_shares = some ns ∧
        recC3.old_lots = some (round2 ((os : ℚ) / 1000)) ∧
        recC3.new_lots = some (round2 ((ns : ℚ) / 1000)) ∧
        recC3.lots_diff
          = some (round2 ((ns : ℚ) / 1000) - round2 ((os : ℚ) / 1000)) ∧
        round2 (round2 ((ns : ℚ) / 1000) - round2 ((os : ℚ) / 1000))
          = round2 ((ns : ℚ) / 1000) - round2 ((os : ℚ) / 1000) := by
  have hmem : recC3 ∈ compare_holdings ysC3 tsC3 := by
    rw [show compare_holdings ysC3 tsC3 = [recC3] from rfl]
    exact List.mem_singleton_self _
  have htype : recC3.change_type = "SHARES_UP" ∨
      recC3.change_type = "SHARES_DOWN" := Or.inr rfl
  exact ⟨hmem, htype, modified_record_lot_delta ysC3 tsC3 recC3 hmem htype⟩

/-- Yesterday snapshot for the C5 witness. -/
def ysC5 : List Holding :=
  [⟨"2330", "台積電", some 1000⟩, ⟨"2317", "鴻海", some 3000⟩]

/-- Today snapshot for the C5 witness ("2317" disappears). -/
def tsC5 : List Holding := [⟨"2330", "台積電", some 1000⟩]

/-- Witness for C5 at a concrete pair of snapshots. -/
theorem compare_holdings_complementarity_witness :
    ("2317" ∈ pyDictKeys ysC5 ∨ "2317" ∈ pyDictKeys tsC5) ∧
      (recordsFor ysC5 tsC5 "2317").length ≤ 1 :=
  ⟨Or.inl (by decide),
    (compare_holdings_complementarity ysC5 tsC5 "2317" (Or.inl (by decide))).1⟩

/-- Yesterday snapshot for the C6 witness (5,000 shares). -/
def ysC6 : List Holding := [⟨"1101", "台泥", some 5000⟩]

/-- Today snapshot for the C6 witness (same stock present with 0 shares). -/
def tsC6 : List Holding := [⟨"1101", "台泥", some 0⟩]

/-- Witness for C6: a drop to zero shares yields exactly one record. -/
theorem compare_holdings_zero_is_down_witness :
    pyDictGet ysC6 "1101" = some ⟨"1101", "台泥", some 5000⟩ ∧
      pyDictGet tsC6 "1101" = some ⟨"1101", "台泥", some 0⟩ ∧
      (Holding.mk "1101" "台泥" (some 0)).getShares = 0 ∧
      0 < (Holding.mk "1101" "台泥" (some 5000)).getShares ∧
      (recordsFor ysC6 tsC6 "1101").length = 1 :=
  ⟨rfl, rfl, rfl, by decide,
    (compare_holdings_zero_is_down ysC6 tsC6 "1101" _ _ rfl rfl rfl
      (by decide)).1⟩

/-- ETF name map for the C7 witness. -/
def infoC7 : List (String × String) := [("0050", "元大台灣50")]

/-- ChangeSet for the C7 scenario: three ETFs each report an adjustment for
stock "2330" with lot deltas +10, −5 and +20. -/
def cdC7 : ChangesDict :=
  [("0050", [{ change_type := "SHARES_UP", stock_code := "2330",
               stock_name := "台積電", lots_diff := some 10 }]),
   ("0051", [{ change_type := "SHARES_UP", stock_code := "2330",
               stock_name := "台積電", lots_diff := some (-5) }]),
   ("0052", [{ change_type := "SHARES_UP", stock_code := "2330",
               stock_name := "台積電", lots_diff := some 20 }])]

lemma cdC7_cent :
    ∀ r ∈ cdC7.flatMap (fun p => p.2),
      ∃ k : ℤ, r.lots_diff.getD 0 = (k : ℚ) / 100 := by
  intro r hr
  simp [cdC7] at hr
  rcases hr with rfl | rfl | rfl
  · exact ⟨1000, by norm_num⟩
  · exact ⟨-500, by norm_num⟩
  · exact ⟨2000, by norm_num⟩

/-- Witness for C7 at the hot-stocks scenario ChangeSet. -/
theorem hot_stocks_spec_witness :
    (∀ r ∈ cdC7.flatMap (fun p => p.2),
      ∃ k : ℤ, r.lots_diff.getD 0 = (k : ℚ) / 100) ∧
    (∀ e ∈ generate_dashboard_hot_stocks infoC7 cdC7 none,
      e.total_adjustments = (adjustmentRecordsFor cdC7 e.stock_code).length ∧
        e.net_change = ((adjustmentRecordsFor cdC7 e.stock_code).map
          (fun r => r.lots_diff.getD 0)).sum) :=
  ⟨cdC7_cent, (hot_stocks_spec infoC7 cdC7 none cdC7_cent).2.2.1⟩

/-- A two-entry report index for the C8 witness. -/
def idxC8 : List ReportIndexEntry :=
  [⟨"2024-01-09", 1, 2, ["0050"]⟩, ⟨"2024-01-08", 2, 3, ["0051", "0052"]⟩]

/-- Witness for C8 at a concrete index. -/
theorem update_reports_index_invariants_witness :
    (idxC8.map ReportIndexEntry.date).Nodup ∧
      (update_reports_index idxC8 [] "2024-01-09").length ≤ 90 :=
  ⟨by decide,
    (update_reports_index_invariants idxC8 [] "2024-01-09" (by decide)).2.1⟩

end TWActiveETF
